import Mathlib

/-!
Shallow embedding of `torch/distributed/pipelining/PipelineSchedule.py`
(pipeline-parallel training schedules: GPipe, 1F1B, Looped BFS,
Interleaved 1F1B), together with proofs of the specification claims.

Conventions of the embedding:
* Python ints are modelled as `ℤ` where a value can go negative in the
  source (the 1F1B step predicates receive `step - 1`, which is `-1` at
  step 0), and as `ℕ` where the source values are provably non-negative.
* Python `assert` statements are modelled with `Except`: a failed
  assertion is `.error` carrying the offending value.
* Mutable per-stage counters (`defaultdict(int)`) are modelled as
  functions `ℕ → ℕ` updated by explicit state passing.
* Compute and `configure_data_parallel_mode` calls are recorded as
  events in a trace; P2P communication calls are modelled where a claim
  is about them (the P2P batcher) and otherwise only their control flow
  (the coalescing predicates, whose evaluation can raise) is kept.
-/

deriving instance DecidableEq for Except

namespace PipelineSchedule

/-- `_ComputationType` from the source: closed sum FORWARD / BACKWARD. -/
inductive _ComputationType where
  | FORWARD
  | BACKWARD
deriving DecidableEq, Repr

/-- A timeline action `(computation_type, microbatch_index, stage_index)`,
    as stored in `pipeline_order`. -/
abbrev Action := _ComputationType × ℕ × ℕ

/-- Events recorded by a single-stage schedule (`ScheduleGPipe`,
    `Schedule1F1B`): `configure_data_parallel_mode(last_backward)` calls,
    `forward_one_chunk` on microbatch `mb`, `backward_one_chunk` on
    microbatch `mb`. -/
inductive Event1 where
  | cfg (lastBackward : Bool)
  | fwd (mb : ℕ)
  | bwd (mb : ℕ)
deriving DecidableEq, Repr

/-- Events recorded by a multi-stage schedule (`ScheduleLoopedBFS`,
    `ScheduleInterleaved1F1B`); the acting stage index is part of the
    event. -/
inductive EventM where
  | cfg (stage : ℕ) (lastBackward : Bool)
  | fwd (stage : ℕ) (mb : ℕ)
  | bwd (stage : ℕ) (mb : ℕ)
deriving DecidableEq, Repr

/-! ## P2P batcher (`_batch_p2p`, `_sorted_batch_p2p`) -/

/-- A P2P op: `dist.P2POp` carries a peer rank (the field the batcher
    groups by); `tag` stands for the rest of the opaque payload
    (direction, tensor). -/
structure P2POp where
  peer : ℕ
  tag : ℕ
deriving DecidableEq, Repr

/-- A completion handle as returned by the transport: we record the ops
    the batched call was issued for. -/
structure WorkHandle where
  ops : List P2POp
deriving DecidableEq, Repr

/-- Modelled from the spec: `dist.batch_isend_irecv` (torch.distributed
    transport, not under `src/`) submits a flat list of P2P ops as one
    batched isend/irecv; per the spec's batch operation, an empty op list
    yields a no-op handle.  It returns the list of request handles that
    `_batch_p2p` pops from; the single batched call is one handle. -/
def batch_isend_irecv (p2p_ops : List P2POp) : List WorkHandle :=
  [⟨p2p_ops⟩]

/-- `_batch_p2p`: wrapper over `batch_isend_irecv` that returns the last
    request handle (`list.pop()` in Python removes and returns the last
    element; `none` models the `IndexError` on an empty list). -/
def _batch_p2p (p2p_ops : List P2POp) : Option WorkHandle :=
  (batch_isend_irecv p2p_ops).getLast?

/-- The insertion step of `ops_by_peer` (a `defaultdict(list)` indexed by
    peer rank, preserving first-come key order and per-key op order). -/
def insertOpByPeer (acc : List (ℕ × List P2POp)) (op : P2POp) :
    List (ℕ × List P2POp) :=
  if acc.any (fun pr => pr.1 = op.peer) then
    acc.map (fun pr => if pr.1 = op.peer then (pr.1, pr.2 ++ [op]) else pr)
  else
    acc ++ [(op.peer, [op])]

/-- `ops_by_peer` of `_sorted_batch_p2p`: classify the ops by peer rank. -/
def ops_by_peer (p2p_ops : List P2POp) : List (ℕ × List P2POp) :=
  p2p_ops.foldl insertOpByPeer []

/-- `_sorted_batch_p2p`: sort the per-peer buckets by peer rank (Python's
    `sorted(ops_by_peer.items())`; keys are distinct so key order decides)
    and issue one batched call per peer; the result maps each peer to the
    handle of its batched call. -/
def _sorted_batch_p2p (p2p_ops : List P2POp) : List (ℕ × WorkHandle) :=
  if p2p_ops.isEmpty then []
  else
    ((ops_by_peer p2p_ops).insertionSort (fun a b => a.1 ≤ b.1)).map
      (fun pr => (pr.1, ⟨pr.2⟩))

/-! ## Loss bookkeeper (`_update_losses`) -/

/-- `_PipelineSchedule._update_losses`, as a state transformer.
    `stages` is the list of `is_last` flags of the stages passed in,
    `losses` the optional external container, `internal` the internal
    loss list, `n` the schedule's `n_microbatches`.  Returns
    `(raised?, internal', losses')`: on the raise path the state is
    returned exactly as it was when the exception fired (no mutation
    precedes the raise in the source). -/
def _update_losses {α : Type} (stages : List Bool) (losses : Option (List α))
    (internal : List α) (n : ℕ) :
    Option String × List α × Option (List α) :=
  let contains_last_stage := stages.any id
  match losses with
  | some _ =>
    if contains_last_stage then
      if internal.length ≠ n then
        (some "Expecting n losses", internal, losses)
      else
        -- losses.clear(); losses.extend(internal); internal.clear()
        (none, [], some internal)
    else
      (none, [], losses)
  | none => (none, [], losses)

/-! ## Input validation (`_PipelineSchedule._check_inputs`) -/

/-- `_check_inputs`: each `*_mbs`, when present, must have length
    `n_microbatches` (else `ValueError`); absent `arg_mbs`/`kwarg_mbs` are
    filled with `n` empty tuples/dicts.  (The `isinstance` checks are
    subsumed by typing in this embedding.) -/
def _check_inputs {A K T : Type} (n : ℕ) (arg_mbs : Option (List A))
    (kwarg_mbs : Option (List K)) (target_mbs : Option (List T))
    (emptyA : A) (emptyK : K) :
    Except String (List A × List K) := do
  let args ← match arg_mbs with
    | some l =>
      if l.length ≠ n then .error "Expecting n arg_mbs" else .ok l
    | none => .ok (List.replicate n emptyA)
  let kwargs ← match kwarg_mbs with
    | some l =>
      if l.length ≠ n then .error "Expecting n kwarg_mbs" else .ok l
    | none => .ok (List.replicate n emptyK)
  match target_mbs with
    | some l =>
      if l.length ≠ n then .error "Expecting n target_mbs"
      else .ok (args, kwargs)
    | none => .ok (args, kwargs)

/-! ## 1F1B derived counts (`Schedule1F1B._step_microbatches`) -/

/-- `warmup_steps = min(n_microbatches, 2 * (num_stages - stage_index - 1))`. -/
def warmup_steps (N S s : ℤ) : ℤ := min N (2 * (S - s - 1))

/-- `main_1f1b_steps = n_microbatches - warmup_steps`. -/
def main_1f1b_steps (N S s : ℤ) : ℤ := N - warmup_steps N S s

/-- `cooldown_steps = 2 * n_microbatches - (warmup_steps + 2 * main_1f1b_steps)`. -/
def cooldown_steps (N S s : ℤ) : ℤ :=
  2 * N - (warmup_steps N S s + 2 * main_1f1b_steps N S s)

/-- `total_steps = warmup_steps + main_1f1b_steps + cooldown_steps`. -/
def total_steps (N S s : ℤ) : ℤ :=
  warmup_steps N S s + main_1f1b_steps N S s + cooldown_steps N S s

/-! ## 1F1B step predicates

Each predicate carries the Python `assert` as an `Except` error holding
the argument of the failed assertion; Python's short-circuiting `and` /
`or` / `not` are `pand` / `por` / `pnot`. -/

/-- Short-circuit `and`: the right operand (and its assertion) is only
    evaluated when the left is truthy. -/
def pand (a b : Except ℤ Bool) : Except ℤ Bool := do
  if (← a) then b else pure false

/-- Short-circuit `or`. -/
def por (a b : Except ℤ Bool) : Except ℤ Bool := do
  if (← a) then pure true else b

/-- Python `not`. -/
def pnot (a : Except ℤ Bool) : Except ℤ Bool := do
  pure (!(← a))

/-- `step_has_forward(i)`: `assert i >= 0`; `i < n_microbatches`. -/
def step_has_forward (N i : ℤ) : Except ℤ Bool :=
  if 0 ≤ i then .ok (decide (i < N)) else .error i

/-- `step_has_backward(i)`: `assert i < total_steps`;
    `i >= warmup_steps and has_backward`. -/
def step_has_backward (total warmup : ℤ) (hb : Bool) (i : ℤ) :
    Except ℤ Bool :=
  if i < total then .ok (decide (warmup ≤ i) && hb) else .error i

/-- `is_1f1b_step(i)`. -/
def is_1f1b_step (N total warmup : ℤ) (hb : Bool) (i : ℤ) : Except ℤ Bool :=
  pand (step_has_forward N i) (step_has_backward total warmup hb i)

/-- `is_warmup_step(i)`. -/
def is_warmup_step (N total warmup : ℤ) (hb : Bool) (i : ℤ) : Except ℤ Bool :=
  pand (step_has_forward N i) (pnot (step_has_backward total warmup hb i))

/-- `is_cooldown_step(i)`. -/
def is_cooldown_step (N total warmup : ℤ) (hb : Bool) (i : ℤ) : Except ℤ Bool :=
  pand (pnot (step_has_forward N i)) (step_has_backward total warmup hb i)

/-- `should_coalesce_fwd_send_bwd_recv(step)`. -/
def should_coalesce_fwd_send_bwd_recv (N total warmup : ℤ) (hb : Bool)
    (step : ℤ) : Except ℤ Bool :=
  por (is_1f1b_step N total warmup hb step)
    (por
      (pand (is_warmup_step N total warmup hb step)
        (is_cooldown_step N total warmup hb (step + 1)))
      (pand (pure (decide (1 ≤ step)))
        (pand (is_warmup_step N total warmup hb (step - 1))
          (is_cooldown_step N total warmup hb step))))

/-- `should_coalesce_bwd_send_fwd_recv(bwd_send_step)`. -/
def should_coalesce_bwd_send_fwd_recv (N total warmup : ℤ) (hb : Bool)
    (bwd_send_step : ℤ) : Except ℤ Bool :=
  pand (pure (decide (warmup ≤ bwd_send_step)))
    (is_1f1b_step N total warmup hb (bwd_send_step + 1))

/-! ## The 1F1B per-step loop -/

/-- One iteration of the `for i in range(total_steps)` loop of
    `Schedule1F1B._step_microbatches`, acting on
    `(trace, bwd_mb_index)`.  Communication-determining predicate calls
    are evaluated (so their assertions can fire) even though the ops they
    guard are not part of the trace. -/
def oneF1BStepBody (N S s : ℤ) (hb : Bool) (st : List Event1 × ℕ) (i : ℕ) :
    Except ℤ (List Event1 × ℕ) := do
  let total := total_steps N S s
  let warmup := warmup_steps N S s
  let (evs, bwd_mb_index) := st
  let hf ← step_has_forward N i
  let evs ← if hf then do
      -- get_fwd_recv_ops; coalesce with bwd sends of the previous step?
      let _ ← should_coalesce_bwd_send_fwd_recv N total warmup hb ((i : ℤ) - 1)
      -- output = forward_one_chunk(arg_mbs[i], kwarg_mbs[i])
      let evs := evs ++ [Event1.fwd i]
      -- fwd sends issued now unless coalesced into this step's bwd recv
      let _ ← should_coalesce_fwd_send_bwd_recv N total warmup hb i
      pure evs
    else pure evs
  let hbk ← step_has_backward total warmup hb i
  if hbk then do
    -- configure_data_parallel_mode(last_backward=(i == total_steps - 1))
    let evs := evs ++ [Event1.cfg (decide ((i : ℤ) = total - 1))]
    -- get_bwd_recv_ops; coalesce with fwd sends of this step?
    let _ ← should_coalesce_fwd_send_bwd_recv N total warmup hb i
    -- backward_one_chunk for microbatch bwd_mb_index
    let evs := evs ++ [Event1.bwd bwd_mb_index]
    -- bwd sends issued now unless coalesced into the next fwd recv
    let _ ← should_coalesce_bwd_send_fwd_recv N total warmup hb i
    pure (evs, bwd_mb_index + 1)
  else
    pure (evs, bwd_mb_index)

/-- `Schedule1F1B._step_microbatches` (compute/configure trace): the
    initial `configure_data_parallel_mode(last_backward=False)` followed
    by the per-step loop.  Returns the trace and the final
    `bwd_mb_index`; `.error i` models an `AssertionError` whose failing
    argument was `i`. -/
def run1F1B (N S s : ℤ) (hb : Bool) : Except ℤ (List Event1 × ℕ) :=
  (List.range (total_steps N S s).toNat).foldlM (oneF1BStepBody N S s hb)
    ([Event1.cfg false], 0)

/-! ## GPipe (`ScheduleGPipe._step_microbatches`) -/

/-- `ScheduleGPipe._step_microbatches` compute/configure trace: all `n`
    forwards in order; then, only when `has_backward`, for each
    microbatch `configure_data_parallel_mode(i == n - 1)` followed by the
    backward. -/
def gpipeEvents (n : ℕ) (hb : Bool) : List Event1 :=
  (List.range n).map Event1.fwd ++
    (if hb then
      (List.range n).flatMap (fun i => [Event1.cfg (i = n - 1), Event1.bwd i])
    else [])

/-! ## Looped BFS (`ScheduleLoopedBFS._step_microbatches`) -/

/-- The input pre-processing of `ScheduleLoopedBFS._step_microbatches`:
    when `arg_mbs` is given, `self._n_microbatches` is REASSIGNED to
    `len(arg_mbs)` and the subsequent `assert len(arg_mbs) ==
    self._n_microbatches` compares against the just-assigned value (so it
    cannot fail); `kwarg_mbs`, when given, is asserted against the
    (possibly reassigned) count.  Returns the new `n_microbatches` and
    the filled microbatch lists. -/
def loopedBFSPreprocess {A K : Type} (n : ℕ) (arg_mbs : Option (List A))
    (kwarg_mbs : Option (List K)) (emptyA : A) (emptyK : K) :
    Except String (ℕ × List A × List K) := do
  let (n, args) ← match arg_mbs with
    | some l =>
      let n' := l.length
      if l.length = n' then pure (n', l) else .error "assert len(arg_mbs)"
    | none => pure (n, List.replicate n emptyA)
  let kwargs ← match kwarg_mbs with
    | some l =>
      if l.length = n then pure l else .error "assert len(kwarg_mbs)"
    | none => pure (List.replicate n emptyK)
  pure (n, args, kwargs)

/-- The compute/configure trace of `ScheduleLoopedBFS._step_microbatches`
    after pre-processing: forward phase over the local stages in list
    order, each running microbatches `0..n-1`; backward phase over the
    stages in reverse order, each microbatch preceded by
    `configure_data_parallel_mode(i == n - 1)`.  `stages` is the list of
    the rank's local stage indices. -/
def loopedBFSEvents (stages : List ℕ) (n : ℕ) : List EventM :=
  stages.flatMap (fun st => (List.range n).map (EventM.fwd st)) ++
    stages.reverse.flatMap (fun st =>
      (List.range n).flatMap (fun i =>
        [EventM.cfg st (i = n - 1), EventM.bwd st i]))

/-- `ScheduleLoopedBFS._step_microbatches`: pre-process (possibly
    reassigning `n_microbatches`), then run both phases.  Returns the new
    `n_microbatches` together with the trace. -/
def loopedBFSStep {A K : Type} (stages : List ℕ) (n : ℕ)
    (arg_mbs : Option (List A)) (kwarg_mbs : Option (List K))
    (emptyA : A) (emptyK : K) : Except String (ℕ × List EventM) := do
  let (n', _, _) ← loopedBFSPreprocess n arg_mbs kwarg_mbs emptyA emptyK
  pure (n', loopedBFSEvents stages n')

/-! ## Interleaved 1F1B planner
(`ScheduleInterleaved1F1B._calculate_single_rank_operations`)

Parameters: `G` = `pp_group_size`, `L` = `n_local_stages`,
`N` = `n_microbatches`, `rank`. -/

/-- `get_rank_warmup_steps(rank)`: `(L-1)*G + 2*((G-1) - rank)`, capped
    at `N*L`. -/
def get_rank_warmup_steps (G L N rank : ℕ) : ℕ :=
  min ((L - 1) * G + 2 * ((G - 1) - rank)) (N * L)

/-- `fwd_bwd_steps = n_local_stages * n_microbatches - warmup_steps`. -/
def fwd_bwd_steps (G L N rank : ℕ) : ℕ :=
  L * N - get_rank_warmup_steps G L N rank

/-- `cooldown_steps = n_local_stages * n_microbatches - fwd_bwd_steps`. -/
def cooldown_steps_interleaved (G L N rank : ℕ) : ℕ :=
  L * N - fwd_bwd_steps G L N rank

/-- `total_steps = warmup_steps + fwd_bwd_steps + cooldown_steps`. -/
def total_steps_interleaved (G L N rank : ℕ) : ℕ :=
  get_rank_warmup_steps G L N rank + fwd_bwd_steps G L N rank +
    cooldown_steps_interleaved G L N rank

/-- `forward_stage_index(step) = ((step // G) % L) * G + rank`. -/
def forward_stage_index (G L rank step : ℕ) : ℕ :=
  step / G % L * G + rank

/-- `backward_stage_index(step) =
    (L - 1 - ((step - warmup_steps) // G) % L) * G + rank`. -/
def backward_stage_index (G L N rank step : ℕ) : ℕ :=
  (L - 1 - (step - get_rank_warmup_steps G L N rank) / G % L) * G + rank

/-- The mutable state of the planning loop: the two
    `defaultdict(int)` microbatch counters, the accumulated `rank_ops`,
    and the remaining `post_warmup_steps`. -/
@[ext]
structure PlanState where
  fwdCnt : ℕ → ℕ
  bwdCnt : ℕ → ℕ
  ops : List (Option Action)
  postWarmup : ℕ

/-- One iteration of the `for step in range(total_steps)` planning loop. -/
def planStep (G L N rank : ℕ) (st : PlanState) (step : ℕ) : PlanState :=
  let warmup := get_rank_warmup_steps G L N rank
  if step < warmup then
    -- Warmup phase: one FORWARD; after the final warmup step, drain
    -- post_warmup_steps no-ops.
    let fs := forward_stage_index G L rank step
    let mb := st.fwdCnt fs
    let ops := st.ops ++ [some (.FORWARD, mb, fs)]
    let ops :=
      if step = warmup - 1 then ops ++ List.replicate st.postWarmup none
      else ops
    { fwdCnt := fun x => if x = fs then mb + 1 else st.fwdCnt x,
      bwdCnt := st.bwdCnt,
      ops := ops,
      postWarmup := if step = warmup - 1 then 0 else st.postWarmup }
  else if step < warmup + fwd_bwd_steps G L N rank then
    -- 1F1B phase: one FORWARD then one BACKWARD.
    let fs := forward_stage_index G L rank step
    let fmb := st.fwdCnt fs
    let bs := backward_stage_index G L N rank step
    let bmb := st.bwdCnt bs
    { fwdCnt := fun x => if x = fs then fmb + 1 else st.fwdCnt x,
      bwdCnt := fun x => if x = bs then bmb + 1 else st.bwdCnt x,
      ops := st.ops ++ [some (.FORWARD, fmb, fs), some (.BACKWARD, bmb, bs)],
      postWarmup := st.postWarmup }
  else
    -- Cooldown phase: a no-op slot then one BACKWARD.
    let bs := backward_stage_index G L N rank step
    let bmb := st.bwdCnt bs
    { fwdCnt := st.fwdCnt,
      bwdCnt := fun x => if x = bs then bmb + 1 else st.bwdCnt x,
      ops := st.ops ++ [none, some (.BACKWARD, bmb, bs)],
      postWarmup := st.postWarmup }

/-- `_calculate_single_rank_operations(rank)`: `rank` no-op slots of
    pre-padding, the planning loop (counters starting at 0,
    `post_warmup_steps = 2` iff `rank == 0`), and `G - rank - 1` no-op
    slots of post-padding. -/
def _calculate_single_rank_operations (G L N rank : ℕ) :
    List (Option Action) :=
  let init : PlanState :=
    ⟨fun _ => 0, fun _ => 0, List.replicate rank none,
      if rank = 0 then 2 else 0⟩
  ((List.range (total_steps_interleaved G L N rank)).foldl
      (planStep G L N rank) init).ops ++
    List.replicate (G - rank - 1) none

/-- `pipeline_order`: one planned row per rank, computed identically on
    every rank. -/
def pipeline_order (G L N : ℕ) : List (List (Option Action)) :=
  (List.range G).map (_calculate_single_rank_operations G L N)

/-! ## Interleaved 1F1B executor
(`ScheduleInterleaved1F1B._step_microbatches`) -/

/-- The local stage indices a rank owns (stages live `G` apart starting
    at the rank's position: `stage_index_to_stage` has exactly these
    keys). -/
def ownedStages (G L rank : ℕ) : List ℕ :=
  (List.range L).map (fun l => l * G + rank)

/-- One time step of the interleaved executor: run this rank's planned
    action (a dictionary lookup `stage_index_to_stage[stage_index]` that
    fails if the rank does not own the stage), then peek the previous
    rank's slot (a FORWARD on a non-final stage makes this rank post
    fwd-recv ops for `stage_index + 1`) and the next rank's slot (a
    BACKWARD on a non-initial stage posts bwd-recv ops for
    `stage_index - 1`); each peek is again a lookup that can fail. -/
def interleavedStepAt (G L N rank : ℕ) (myRow prevRow nextRow :
    List (Option Action)) (t : ℕ) : Except String (List EventM) :=
  let num_stages := L * G
  (match myRow.getD t none with
    | some (.FORWARD, mb_index, stage_index) =>
      if stage_index ∈ ownedStages G L rank then
        pure [EventM.fwd stage_index mb_index]
      else .error "stage not owned"
    | some (.BACKWARD, mb_index, stage_index) =>
      if stage_index ∈ ownedStages G L rank then
        pure [EventM.bwd stage_index mb_index]
      else .error "stage not owned"
    | none => pure []) >>= fun evs =>
  (match prevRow.getD t none with
    | some (.FORWARD, _, stage_index) =>
      if stage_index ≠ num_stages - 1 then
        if (stage_index + 1) ∈ ownedStages G L rank then pure ()
        else .error "stage not owned"
      else pure ()
    | _ => pure ()) >>= fun _ =>
  (match nextRow.getD t none with
    | some (.BACKWARD, _, stage_index) =>
      if stage_index ≠ 0 then
        if (stage_index - 1) ∈ ownedStages G L rank then pure ()
        else .error "stage not owned"
      else pure ()
    | _ => pure ()) >>= fun _ =>
  pure evs

/-- `ScheduleInterleaved1F1B._step_microbatches` compute trace for one
    rank: walk `pipeline_order[rank]` by time step, consulting
    `pipeline_order[(rank-1) % G]` and `pipeline_order[(rank+1) % G]`
    for recv inference.  Note the source issues NO
    `configure_data_parallel_mode` call in this schedule, so the trace
    can contain no `cfg` event. -/
def runInterleaved1F1B (G L N rank : ℕ) : Except String (List EventM) := do
  let order := pipeline_order G L N
  let myRow := order.getD rank []
  let prevRow := order.getD ((rank + G - 1) % G) []  -- (rank - 1) % G in Python
  let nextRow := order.getD ((rank + 1) % G) []
  let evss ← (List.range myRow.length).mapM
    (interleavedStepAt G L N rank myRow prevRow nextRow)
  pure evss.flatten

/-! ## Trace and timeline observers used by the claims -/

/-- Is this a `configure_data_parallel_mode(last_backward=True)` call? -/
def isCfgTrue1 : Event1 → Bool
  | .cfg true => true
  | _ => false

/-- Is this a `configure_data_parallel_mode(last_backward=True)` call on
    stage `st`? -/
def isCfgTrueM (st : ℕ) : EventM → Bool
  | .cfg st' b => st' = st && b
  | _ => false

/-- Is this any `configure_data_parallel_mode` call? -/
def isCfgM : EventM → Bool
  | .cfg _ _ => true
  | _ => false

/-- Is this a backward compute? -/
def isBwdM : EventM → Bool
  | .bwd _ _ => true
  | _ => false

/-- Extract the microbatch index of a FORWARD slot on stage `s`. -/
def fwdExtractFor (s : ℕ) : Option Action → Option ℕ
  | some (.FORWARD, mb, st) => if st = s then some mb else none
  | _ => none

/-- Extract the microbatch index of a BACKWARD slot on stage `s`. -/
def bwdExtractFor (s : ℕ) : Option Action → Option ℕ
  | some (.BACKWARD, mb, st) => if st = s then some mb else none
  | _ => none

/-- Extract the `(microbatch, stage)` payload of a FORWARD slot. -/
def fwdEntryExtract : Option Action → Option (ℕ × ℕ)
  | some (.FORWARD, mb, st) => some (mb, st)
  | _ => none

/-- Extract the `(microbatch, stage)` payload of a BACKWARD slot. -/
def bwdEntryExtract : Option Action → Option (ℕ × ℕ)
  | some (.BACKWARD, mb, st) => some (mb, st)
  | _ => none

/-- The microbatch indices of the FORWARD entries for stage `s` in a
    timeline row, in row order. -/
def fwdMbsFor (row : List (Option Action)) (s : ℕ) : List ℕ :=
  row.filterMap (fwdExtractFor s)

/-- The microbatch indices of the BACKWARD entries for stage `s` in a
    timeline row, in row order. -/
def bwdMbsFor (row : List (Option Action)) (s : ℕ) : List ℕ :=
  row.filterMap (bwdExtractFor s)

/-- All `(microbatch, stage)` pairs of FORWARD entries in a row. -/
def fwdEntries (row : List (Option Action)) : List (ℕ × ℕ) :=
  row.filterMap fwdEntryExtract

/-- All `(microbatch, stage)` pairs of BACKWARD entries in a row. -/
def bwdEntries (row : List (Option Action)) : List (ℕ × ℕ) :=
  row.filterMap bwdEntryExtract

/-! # Claim theorems -/

/-- C3 counterexample: at S=4 total stages, N=8 microbatches,
    stage_index=1, the derived counts are warmup=4, main=4, cooldown=4,
    so warmup + main + cooldown = total = 12, but 2*N = 16: the claimed
    identity `warmup + main + cooldown == total == 2*N` is false. -/
theorem onef1b_counts_neq_twoN :
    warmup_steps 8 4 1 = 4 ∧ main_1f1b_steps 8 4 1 = 4 ∧
      cooldown_steps 8 4 1 = 4 ∧
      warmup_steps 8 4 1 + main_1f1b_steps 8 4 1 + cooldown_steps 8 4 1 =
        total_steps 8 4 1 ∧
      total_steps 8 4 1 = 12 ∧ ¬ total_steps 8 4 1 = 2 * 8 := by
  decide

/-- C3 (amended): for every stage index `0 ≤ s < S` and every
    `N ≥ 0`, the 1F1B derived counts satisfy
    `warmup + main + cooldown == total == N + warmup`, and the work
    identity `warmup + 2*main + cooldown == 2*N` (the code defines
    `cooldown` exactly so that this holds); `total = 2*N` only in the
    special case `warmup = N`. -/
theorem onef1b_counts_identity (N S s : ℤ) (hs0 : 0 ≤ s) (hsS : s < S)
    (hN : 0 ≤ N) :
    warmup_steps N S s + main_1f1b_steps N S s + cooldown_steps N S s =
        total_steps N S s ∧
      total_steps N S s = N + warmup_steps N S s ∧
      warmup_steps N S s + 2 * main_1f1b_steps N S s +
        cooldown_steps N S s = 2 * N ∧
      (total_steps N S s = 2 * N ↔ warmup_steps N S s = N) := by
  unfold total_steps cooldown_steps main_1f1b_steps warmup_steps
  omega

/-- C3 witness: the amended identity instantiated at S=4, N=8, s=1. -/
theorem onef1b_counts_identity_witness :
    warmup_steps 8 4 1 + main_1f1b_steps 8 4 1 + cooldown_steps 8 4 1 =
        total_steps 8 4 1 ∧
      total_steps 8 4 1 = 8 + warmup_steps 8 4 1 ∧
      warmup_steps 8 4 1 + 2 * main_1f1b_steps 8 4 1 +
        cooldown_steps 8 4 1 = 2 * 8 ∧
      (total_steps 8 4 1 = 2 * 8 ↔ warmup_steps 8 4 1 = 8) :=
  onef1b_counts_identity 8 4 1 (by decide) (by decide) (by decide)

/-- C6: `_update_losses` raises exactly when some stage is last, an
    external container is provided and the internal loss count differs
    from `n_microbatches`; on the raise path both the internal list and
    the external container are as they were; otherwise the internal list
    ends empty, and when a last stage and a container are present the
    container ends equal to the internal losses in order. -/
theorem update_losses_spec {α : Type} (stages : List Bool)
    (losses : Option (List α)) (internal : List α) (n : ℕ) :
    _update_losses stages losses internal n =
      if stages.any id = true ∧ losses.isSome = true ∧
          internal.length ≠ n then
        (some "Expecting n losses", internal, losses)
      else
        (none, [],
          if stages.any id = true ∧ losses.isSome = true then some internal
          else losses) := by
  unfold _update_losses
  cases losses with
  | none => simp
  | some ext =>
    by_cases hlast : stages.any id = true <;>
      by_cases hlen : internal.length = n <;>
      simp [hlast, hlen]

/-- C7: for 1F1B with S=4 stages, N=8 microbatches, stage_index=1:
    warmup=4, main=4, cooldown=4, total=12;
    `should_coalesce_fwd_send_bwd_recv(t)` holds exactly for
    t ∈ {4,5,6,7} among the steps 0..11; and `bwd_mb_index` is 8 when
    the per-step loop exits. -/
theorem onef1b_s4_n8_stage1 :
    warmup_steps 8 4 1 = 4 ∧ main_1f1b_steps 8 4 1 = 4 ∧
      cooldown_steps 8 4 1 = 4 ∧ total_steps 8 4 1 = 12 ∧
      ((List.range 12).all fun t =>
        decide (should_coalesce_fwd_send_bwd_recv 8 12 4 true (t : ℤ) =
          .ok (decide (4 ≤ t ∧ t < 8)))) = true ∧
      (run1F1B 8 4 1 true).toOption.map Prod.snd = some 8 := by
  decide

/-- C10: `_batch_p2p` on an empty op list returns a (no-op) completion
    handle rather than failing: the modelled transport returns the
    single batched handle and `pop()` yields it. -/
theorem batch_p2p_empty_ok :
    _batch_p2p [] = some ⟨[]⟩ := by
  decide

/-- C2 (code bug evidence): with `n_microbatches = 4` and an `arg_mbs`
    of length 3, the shared `_check_inputs` (used by GPipe, 1F1B and
    Interleaved 1F1B) raises before any compute, but
    `ScheduleLoopedBFS._step_microbatches` instead silently reassigns
    `n_microbatches := 3` and runs the full forward and backward phases
    over 3 microbatches. -/
theorem looped_bfs_length_mismatch_no_error :
    (_check_inputs 4 (some (List.replicate 3 (0 : ℕ)))
        (none : Option (List ℕ)) (none : Option (List ℕ)) 0 0).isOk
      = false ∧
    loopedBFSStep [1, 3] 4 (some (List.replicate 3 (0 : ℕ)))
        (none : Option (List ℕ)) 0 0 =
      .ok (3, loopedBFSEvents [1, 3] 3) ∧
    (3 : ℕ) ≠ 4 ∧ loopedBFSEvents [1, 3] 3 ≠ [] := by
  decide

/-! ### C8: `_sorted_batch_p2p` -/

/-- Invariant of the classification fold of `ops_by_peer`: relative to
    the ops already processed, the bucket keys are exactly the distinct
    peers seen, and each bucket is the subsequence of processed ops with
    that peer. -/
def PeerInv (processed : List P2POp) (acc : List (ℕ × List P2POp)) : Prop :=
  (acc.map Prod.fst).Nodup ∧
    (∀ pr ∈ acc, pr.2 = processed.filter (fun op => op.peer = pr.1)) ∧
    (∀ p : ℕ, p ∈ acc.map Prod.fst ↔ p ∈ processed.map P2POp.peer)

lemma peerInv_nil : PeerInv [] [] := by
  refine ⟨List.nodup_nil, ?_, ?_⟩ <;> simp

lemma peerInv_insert {processed : List P2POp} {acc : List (ℕ × List P2POp)}
    (op : P2POp) (h : PeerInv processed acc) :
    PeerInv (processed ++ [op]) (insertOpByPeer acc op) := by
  obtain ⟨hnd, hbkt, hmem⟩ := h
  unfold insertOpByPeer
  by_cases hany : acc.any (fun pr => pr.1 = op.peer) = true
  · -- the peer already has a bucket: append the op to it
    have hpeer_mem : op.peer ∈ acc.map Prod.fst := by
      rcases List.any_eq_true.mp hany with ⟨pr, hpr, heq⟩
      exact List.mem_map.mpr ⟨pr, hpr, by simpa using heq⟩
    have hkeys :
        (acc.map (fun pr => if pr.1 = op.peer then (pr.1, pr.2 ++ [op])
          else pr)).map Prod.fst = acc.map Prod.fst := by
      rw [List.map_map]
      refine List.map_congr_left fun pr _ => ?_
      by_cases hpr : pr.1 = op.peer <;> simp [hpr]
    rw [hany]
    simp only [if_true]
    refine ⟨by rw [hkeys]; exact hnd, ?_, ?_⟩
    · intro pr' hpr'
      rcases List.mem_map.mp hpr' with ⟨pr, hpr, rfl⟩
      by_cases hp : pr.1 = op.peer
      · simp only [hp, if_true, List.filter_append]
        rw [hbkt pr hpr, hp]
        simp
      · simp only [hp, if_false, List.filter_append]
        rw [hbkt pr hpr]
        have : (List.filter (fun o => o.peer = pr.1) [op]) = [] := by
          simp [List.filter, show (op.peer = pr.1) = False by
            simp; intro hc; exact hp (by rw [← hc])]
        rw [this, List.append_nil]
    · intro p
      rw [hkeys, hmem p]
      simp only [List.map_append, List.map_cons, List.map_nil,
        List.mem_append, List.mem_singleton]
      constructor
      · intro hp; exact Or.inl hp
      · rintro (hp | rfl)
        · exact hp
        · exact (hmem _).mp hpeer_mem
  · -- first op for this peer: open a new bucket at the end
    have hpeer_not : op.peer ∉ acc.map Prod.fst := by
      intro hc
      rcases List.mem_map.mp hc with ⟨pr, hpr, hfst⟩
      exact hany (List.any_eq_true.mpr ⟨pr, hpr, by simp [hfst]⟩)
    rw [Bool.not_eq_true] at hany
    rw [hany]
    simp only [Bool.false_eq_true, if_false]
    refine ⟨?_, ?_, ?_⟩
    · rw [List.map_append]
      simp only [List.map_cons, List.map_nil]
      rw [List.nodup_append]
      exact ⟨hnd, List.nodup_singleton _,
        by intro a ha hb; simp at hb; exact hpeer_not (hb ▸ ha)⟩
    · intro pr' hpr'
      rcases List.mem_append.mp hpr' with hin | hnew
      · have hne : op.peer ≠ pr'.1 := by
          intro hc
          exact hpeer_not (hc ▸ List.mem_map.mpr ⟨pr', hin, rfl⟩)
        rw [List.filter_append, hbkt pr' hin]
        have : (List.filter (fun o => o.peer = pr'.1) [op]) = [] := by
          simp [List.filter, show (op.peer = pr'.1) = False by simp [hne]]
        rw [this, List.append_nil]
      · have hpr' : pr' = (op.peer, [op]) := by simpa using hnew
        subst hpr'
        have hnotin : op.peer ∉ processed.map P2POp.peer := by
          intro hc; exact hpeer_not ((hmem _).mpr hc)
        have hfilt : processed.filter (fun o => o.peer = op.peer) = [] := by
          rw [List.filter_eq_nil_iff]
          intro o ho hc
          exact hnotin (List.mem_map.mpr ⟨o, ho, by simpa using hc⟩)
        simp only [List.filter_append, hfilt, List.nil_append]
        simp [List.filter]
    · intro p
      simp only [List.map_append, List.map_cons, List.map_nil,
        List.mem_append, List.mem_singleton]
      rw [hmem p]

lemma peerInv_foldl (rest : List P2POp) :
    ∀ (processed : List P2POp) (acc : List (ℕ × List P2POp)),
      PeerInv processed acc →
      PeerInv (processed ++ rest) (rest.foldl insertOpByPeer acc) := by
  induction rest with
  | nil => intro processed acc h; simpa using h
  | cons op rest ih =>
    intro processed acc h
    have h' := peerInv_insert op h
    have := ih (processed ++ [op]) (insertOpByPeer acc op) h'
    simpa using this

lemma ops_by_peer_inv (ops : List P2POp) : PeerInv ops (ops_by_peer ops) := by
  have := peerInv_foldl ops [] [] peerInv_nil
  simpa [ops_by_peer] using this

/-- C8: `_sorted_batch_p2p` issues its batched calls in strictly
    ascending peer-rank order, has exactly one entry per distinct peer
    of the input, each entry's batched handle covers exactly that peer's
    ops in their original order, and the empty input produces no calls. -/
theorem sorted_batch_p2p_spec (ops : List P2POp) :
    ((_sorted_batch_p2p ops).map Prod.fst).Pairwise (· < ·) ∧
      (∀ p : ℕ, p ∈ (_sorted_batch_p2p ops).map Prod.fst ↔
        p ∈ ops.map P2POp.peer) ∧
      (∀ pr ∈ _sorted_batch_p2p ops,
        pr.2 = ⟨ops.filter (fun op => op.peer = pr.1)⟩) ∧
      (ops = [] → _sorted_batch_p2p ops = []) := by
  obtain ⟨hnd, hbkt, hmem⟩ := ops_by_peer_inv ops
  by_cases hops : ops = []
  · subst hops
    refine ⟨?_, ?_, ?_, fun _ => rfl⟩ <;> simp [_sorted_batch_p2p]
  · have hne : ops.isEmpty = false := by
      cases ops with
      | nil => exact absurd rfl hops
      | cons a l => rfl
    haveI htot : IsTotal (ℕ × List P2POp) (fun a b => a.1 ≤ b.1) :=
      ⟨fun a b => Nat.le_total a.1 b.1⟩
    haveI htrans : IsTrans (ℕ × List P2POp) (fun a b => a.1 ≤ b.1) :=
      ⟨fun a b c hab hbc => Nat.le_trans hab hbc⟩
    have hperm := List.perm_insertionSort
      (fun (a b : ℕ × List P2POp) => a.1 ≤ b.1) (ops_by_peer ops)
    have hsorted := List.sorted_insertionSort
      (fun (a b : ℕ × List P2POp) => a.1 ≤ b.1) (ops_by_peer ops)
    have hresult : _sorted_batch_p2p ops =
        ((ops_by_peer ops).insertionSort (fun a b => a.1 ≤ b.1)).map
          (fun pr => (pr.1, (⟨pr.2⟩ : WorkHandle))) := by
      simp [_sorted_batch_p2p, hne]
    have hkeys : (_sorted_batch_p2p ops).map Prod.fst =
        ((ops_by_peer ops).insertionSort (fun a b => a.1 ≤ b.1)).map
          Prod.fst := by
      rw [hresult, List.map_map]; rfl
    have hkeys_perm :
        (((ops_by_peer ops).insertionSort (fun a b => a.1 ≤ b.1)).map
          Prod.fst).Perm ((ops_by_peer ops).map Prod.fst) :=
      List.Perm.map Prod.fst hperm
    refine ⟨?_, ?_, ?_, fun hc => absurd hc hops⟩
    · -- strictly ascending: sorted (≤ on keys) plus nodup keys
      have hle :
          (((ops_by_peer ops).insertionSort (fun a b => a.1 ≤ b.1)).map
            Prod.fst).Pairwise (· ≤ ·) := by
        rw [List.pairwise_map]
        exact hsorted
      have hnd' :
          (((ops_by_peer ops).insertionSort (fun a b => a.1 ≤ b.1)).map
            Prod.fst).Nodup := hkeys_perm.nodup_iff.mpr hnd
      rw [hkeys]
      exact (hle.and hnd').imp fun {a b} h =>
        Nat.lt_of_le_of_ne h.1 h.2
    · intro p
      rw [hkeys, hkeys_perm.mem_iff]
      exact hmem p
    · intro pr hpr
      rw [hresult] at hpr
      rcases List.mem_map.mp hpr with ⟨q, hq, rfl⟩
      have hq' : q ∈ ops_by_peer ops := hperm.mem_iff.mp hq
      simpa using congrArg WorkHandle.mk (hbkt q hq')

/-- C8 witness: the batcher specification evaluated on a concrete op
    list with peers 3, 1, 3, 0, 1 (and on the empty list). -/
theorem sorted_batch_p2p_spec_witness :
    (((_sorted_batch_p2p [⟨3, 0⟩, ⟨1, 1⟩, ⟨3, 2⟩, ⟨0, 3⟩, ⟨1, 4⟩]).map
        Prod.fst).Pairwise (· < ·) ∧
      (∀ pr ∈ _sorted_batch_p2p [⟨3, 0⟩, ⟨1, 1⟩, ⟨3, 2⟩, ⟨0, 3⟩, ⟨1, 4⟩],
        pr.2 = ⟨[⟨3, 0⟩, ⟨1, 1⟩, ⟨3, 2⟩, ⟨0, 3⟩, ⟨1, 4⟩].filter
          (fun op => op.peer = pr.1)⟩)) ∧
      _sorted_batch_p2p [] = [] := by
  refine ⟨⟨?_, ?_⟩, ?_⟩
  · exact (sorted_batch_p2p_spec [⟨3, 0⟩, ⟨1, 1⟩, ⟨3, 2⟩, ⟨0, 3⟩, ⟨1, 4⟩]).1
  · exact (sorted_batch_p2p_spec [⟨3, 0⟩, ⟨1, 1⟩, ⟨3, 2⟩, ⟨0, 3⟩, ⟨1, 4⟩]).2.2.1
  · exact (sorted_batch_p2p_spec []).2.2.2 rfl

/-! ### 1F1B runtime: evaluation lemmas for the step predicates -/

lemma ok_bind {α β : Type} (a : α) (f : α → Except ℤ β) :
    (Except.ok a >>= f) = f a := rfl

lemma error_bind {α β : Type} (e : ℤ) (f : α → Except ℤ β) :
    (Except.error e >>= f) = Except.error e := rfl

lemma bind_discard_ok {β : Type} {e : Except ℤ Bool}
    (h : ∃ b, e = .ok b) (k : Except ℤ β) :
    (e >>= fun _ => k) = k := by
  obtain ⟨b, hb⟩ := h
  rw [hb, ok_bind]

lemma shf_eval {Nv i : ℤ} (h : 0 ≤ i) :
    step_has_forward Nv i = .ok (decide (i < Nv)) := by
  unfold step_has_forward
  rw [if_pos h]

lemma shb_eval {totv wv i : ℤ} {hb : Bool} (h : i < totv) :
    step_has_backward totv wv hb i = .ok (decide (wv ≤ i) && hb) := by
  unfold step_has_backward
  rw [if_pos h]

lemma shb_err {totv wv i : ℤ} {hb : Bool} (h : ¬ i < totv) :
    step_has_backward totv wv hb i = .error i := by
  unfold step_has_backward
  rw [if_neg h]

lemma pand_ok_left {b : Except ℤ Bool} (c : Bool) :
    pand (.ok c) b = if c then b else .ok false := by
  unfold pand
  cases c <;> simp [ok_bind, pure, Except.pure]

lemma por_ok_left {b : Except ℤ Bool} (c : Bool) :
    por (.ok c) b = if c then .ok true else b := by
  unfold por
  cases c <;> simp [ok_bind, pure, Except.pure]

lemma pnot_ok (c : Bool) : pnot (.ok c) = .ok (!c) := rfl

lemma is1f1b_ok {Nv totv wv i : ℤ} {hb : Bool} (h0 : 0 ≤ i)
    (hNT : Nv ≤ totv) :
    ∃ b, is_1f1b_step Nv totv wv hb i = .ok b := by
  unfold is_1f1b_step
  rw [shf_eval h0, pand_ok_left]
  by_cases hi : i < Nv
  · rw [if_pos (by simpa using hi)]
    exact ⟨_, shb_eval (lt_of_lt_of_le hi hNT)⟩
  · rw [if_neg (by simpa using hi)]
    exact ⟨false, rfl⟩

lemma is_warmup_eval {Nv totv wv i : ℤ} {hb : Bool} (h0 : 0 ≤ i)
    (hNT : Nv ≤ totv) :
    is_warmup_step Nv totv wv hb i =
      .ok (decide (i < Nv) && !(decide (wv ≤ i) && hb)) := by
  unfold is_warmup_step
  rw [shf_eval h0, pand_ok_left]
  by_cases hi : i < Nv
  · rw [if_pos (by simpa using hi),
      shb_eval (lt_of_lt_of_le hi hNT), pnot_ok]
    simp [hi]
  · rw [if_neg (by simpa using hi)]
    simp [hi]

lemma is_cooldown_eval {Nv totv wv i : ℤ} {hb : Bool} (h0 : 0 ≤ i)
    (hT : i < totv) :
    is_cooldown_step Nv totv wv hb i =
      .ok (!decide (i < Nv) && (decide (wv ≤ i) && hb)) := by
  unfold is_cooldown_step
  rw [shf_eval h0, pnot_ok, pand_ok_left]
  by_cases hi : i < Nv
  · simp [hi]
  · rw [if_pos (by simpa using hi), shb_eval hT]
    simp [hi]

lemma scBSFR_ok {Nv totv wv j : ℤ} {hb : Bool} (h0 : -1 ≤ j)
    (hNT : Nv ≤ totv) :
    ∃ b, should_coalesce_bwd_send_fwd_recv Nv totv wv hb j = .ok b := by
  unfold should_coalesce_bwd_send_fwd_recv
  have hpure : (pure (decide (wv ≤ j)) : Except ℤ Bool) =
      .ok (decide (wv ≤ j)) := rfl
  rw [hpure, pand_ok_left]
  by_cases hw : wv ≤ j
  · rw [if_pos (by simpa using hw)]
    exact is1f1b_ok (by omega) hNT
  · rw [if_neg (by simpa using hw)]
    exact ⟨false, rfl⟩

lemma scFSBR_ok_true {Nv totv wv i : ℤ} (h0 : 0 ≤ i) (hiT : i < totv)
    (hW0 : 0 ≤ wv) (hWN : wv ≤ Nv) (hT : totv = Nv + wv) :
    ∃ b, should_coalesce_fwd_send_bwd_recv Nv totv wv true i = .ok b := by
  have hNT : Nv ≤ totv := by omega
  unfold should_coalesce_fwd_send_bwd_recv
  obtain ⟨b1, hb1⟩ := @is1f1b_ok Nv totv wv i true h0 hNT
  rw [hb1, por_ok_left]
  by_cases hb1t : b1 = true
  · rw [if_pos (by simpa using hb1t)]
    exact ⟨true, rfl⟩
  · rw [if_neg (by simpa using hb1t)]
    rw [is_warmup_eval h0 hNT, pand_ok_left]
    by_cases hwv : (decide (i < Nv) && !(decide (wv ≤ i) && true)) = true
    · rw [if_pos hwv]
      have hi1 : i + 1 < totv := by
        simp only [Bool.and_eq_true, Bool.not_eq_true', Bool.and_eq_true,
          decide_eq_true_eq, Bool.and_true, Bool.not_eq_true,
          decide_eq_false_iff_not] at hwv
        omega
      rw [is_cooldown_eval (by omega) hi1, por_ok_left]
      by_cases hcd : (!decide (i + 1 < Nv) && (decide (wv ≤ i + 1) && true))
          = true
      · rw [if_pos hcd]; exact ⟨true, rfl⟩
      · rw [if_neg hcd]
        have hpure : (pure (decide ((1:ℤ) ≤ i)) : Except ℤ Bool) =
            .ok (decide (1 ≤ i)) := rfl
        rw [hpure, pand_ok_left]
        by_cases h1 : (1:ℤ) ≤ i
        · rw [if_pos (by simpa using h1)]
          rw [is_warmup_eval (by omega) hNT, pand_ok_left]
          by_cases hw2 : (decide (i - 1 < Nv) && !(decide (wv ≤ i - 1) && true))
              = true
          · rw [if_pos hw2]
            rw [is_cooldown_eval h0 hiT]
            exact ⟨_, rfl⟩
          · rw [if_neg hw2]; exact ⟨false, rfl⟩
        · rw [if_neg (by simpa using h1)]; exact ⟨false, rfl⟩
    · rw [if_neg hwv, por_ok_left]
      simp only [Bool.false_eq_true, if_false]
      have hpure : (pure (decide ((1:ℤ) ≤ i)) : Except ℤ Bool) =
          .ok (decide (1 ≤ i)) := rfl
      rw [hpure, pand_ok_left]
      by_cases h1 : (1:ℤ) ≤ i
      · rw [if_pos (by simpa using h1)]
        rw [is_warmup_eval (by omega) hNT, pand_ok_left]
        by_cases hw2 : (decide (i - 1 < Nv) && !(decide (wv ≤ i - 1) && true))
            = true
        · rw [if_pos hw2]
          rw [is_cooldown_eval h0 hiT]
          exact ⟨_, rfl⟩
        · rw [if_neg hw2]; exact ⟨false, rfl⟩
      · rw [if_neg (by simpa using h1)]; exact ⟨false, rfl⟩

/-! ### 1F1B runtime: closed form of the loop with a loss function -/

lemma warmup_steps_nonneg {N S s : ℤ} (hs : s < S) (hN : 0 ≤ N) :
    0 ≤ warmup_steps N S s :=
  le_min hN (by omega)

lemma warmup_steps_le {N S s : ℤ} : warmup_steps N S s ≤ N :=
  min_le_left _ _

lemma total_steps_eq {N S s : ℤ} :
    total_steps N S s = N + warmup_steps N S s := by
  unfold total_steps cooldown_steps main_1f1b_steps
  ring

/-- The events of step `i` of the 1F1B loop when `has_backward` holds:
    a forward while `i < N`, and from step `warmup` on a
    `configure_data_parallel_mode(i == total-1)` followed by the backward
    of microbatch `i - warmup`. -/
def onef1bStepEvents (N S s : ℤ) (i : ℕ) : List Event1 :=
  (if (i : ℤ) < N then [Event1.fwd i] else []) ++
    (if warmup_steps N S s ≤ (i : ℤ) then
      [Event1.cfg (decide ((i : ℤ) = total_steps N S s - 1)),
        Event1.bwd (i - (warmup_steps N S s).toNat)]
    else [])

lemma oneF1BStepBody_ok_true {N S s : ℤ} (hW0 : 0 ≤ warmup_steps N S s)
    (hWN : warmup_steps N S s ≤ N) (i : ℕ)
    (hi : (i : ℤ) < total_steps N S s) (evs : List Event1) (b : ℕ) :
    oneF1BStepBody N S s true (evs, b) i =
      .ok (evs ++
          ((if (i : ℤ) < N then [Event1.fwd i] else []) ++
            (if warmup_steps N S s ≤ (i : ℤ) then
              [Event1.cfg (decide ((i : ℤ) = total_steps N S s - 1)),
                Event1.bwd b]
            else [])),
        if warmup_steps N S s ≤ (i : ℤ) then b + 1 else b) := by
  have hT := total_steps_eq (N := N) (S := S) (s := s)
  have h0 : (0 : ℤ) ≤ (i : ℤ) := Int.natCast_nonneg i
  unfold oneF1BStepBody
  dsimp only
  rw [shf_eval h0, ok_bind]
  by_cases hiN : (i : ℤ) < N
  · simp only [hiN, decide_True, if_true]
    rw [bind_discard_ok (scBSFR_ok (by omega) (by omega)) _]
    rw [bind_discard_ok (scFSBR_ok_true h0 hi hW0 hWN hT) _]
    rw [pure_bind, shb_eval hi, ok_bind]
    by_cases hw : warmup_steps N S s ≤ (i : ℤ)
    · simp only [hw, decide_True, Bool.and_self, if_true]
      rw [bind_discard_ok (scFSBR_ok_true h0 hi hW0 hWN hT) _]
      rw [bind_discard_ok (scBSFR_ok (by omega) (by omega)) _]
      simp [hiN, hw, pure, Except.pure]
    · simp only [hw, decide_False, Bool.false_and, Bool.and_true, if_false]
      simp [hiN, hw, pure, Except.pure]
  · simp only [hiN, decide_False, Bool.false_eq_true, if_false]
    rw [pure_bind, shb_eval hi, ok_bind]
    by_cases hw : warmup_steps N S s ≤ (i : ℤ)
    · simp only [hw, decide_True, Bool.and_self, if_true]
      rw [bind_discard_ok (scFSBR_ok_true h0 hi hW0 hWN hT) _]
      rw [bind_discard_ok (scBSFR_ok (by omega) (by omega)) _]
      simp [hiN, hw, pure, Except.pure]
    · simp only [hw, decide_False, Bool.false_and, Bool.and_true, if_false]
      simp [hiN, hw, pure, Except.pure]

lemma run1F1B_fold_true {N S s : ℤ} (hW0 : 0 ≤ warmup_steps N S s)
    (hWN : warmup_steps N S s ≤ N) :
    ∀ k, k ≤ (total_steps N S s).toNat →
      (List.range k).foldlM (oneF1BStepBody N S s true)
          ([Event1.cfg false], 0) =
        .ok (Event1.cfg false ::
            (List.range k).flatMap (onef1bStepEvents N S s),
          k - min k (warmup_steps N S s).toNat) := by
  intro k hk
  induction k with
  | zero => simp [pure, Except.pure]
  | succ k ih =>
    have hk' : k ≤ (total_steps N S s).toNat := by omega
    rw [List.range_succ, List.foldlM_append, ih hk']
    rw [ok_bind]
    simp only [List.foldlM_cons, List.foldlM_nil]
    have hkT : (k : ℤ) < total_steps N S s := by omega
    rw [oneF1BStepBody_ok_true hW0 hWN k hkT, ok_bind]
    by_cases hw : warmup_steps N S s ≤ (k : ℤ)
    · have hmin : min k (warmup_steps N S s).toNat =
          (warmup_steps N S s).toNat := by omega
      rw [hmin]
      simp only [hw, if_true]
      simp only [pure, Except.pure, Except.ok.injEq, Prod.mk.injEq]
      refine ⟨?_, by omega⟩
      simp [onef1bStepEvents, List.flatMap_append, hw]
    · simp only [hw, if_false]
      simp only [pure, Except.pure, Except.ok.injEq, Prod.mk.injEq]
      refine ⟨?_, by omega⟩
      simp [onef1bStepEvents, List.flatMap_append, hw]

/-- The full closed-form trace of `Schedule1F1B._step_microbatches` when
    `has_backward` holds: no assertion fires, and the loop exits with
    `bwd_mb_index = N`. -/
lemma run1F1B_closed {N S s : ℤ} (hs : s < S) (hN : 0 ≤ N) :
    run1F1B N S s true =
      .ok (Event1.cfg false ::
          (List.range (total_steps N S s).toNat).flatMap
            (onef1bStepEvents N S s),
        N.toNat) := by
  have hW0 := warmup_steps_nonneg hs hN
  have hWN := warmup_steps_le (N := N) (S := S) (s := s)
  have hT := total_steps_eq (N := N) (S := S) (s := s)
  unfold run1F1B
  rw [run1F1B_fold_true hW0 hWN _ le_rfl]
  simp only [Except.ok.injEq, Prod.mk.injEq]
  exact ⟨trivial, by omega⟩

/-! ### 1F1B runtime: the assertion failure without a loss function -/

lemma pand_err {e : ℤ} (b : Except ℤ Bool) :
    pand (.error e) b = .error e := rfl

lemma por_err {e : ℤ} (b : Except ℤ Bool) :
    por (.error e) b = .error e := rfl

/-- With `has_backward = False` and `warmup = 0`,
    `should_coalesce_fwd_send_bwd_recv(N-1)` evaluates
    `is_cooldown_step(N)`, whose `step_has_backward(N)` assertion
    `N < total_steps = N` fails. -/
lemma scFSBR_err_last {N : ℤ} (hN : 1 ≤ N) :
    should_coalesce_fwd_send_bwd_recv N N 0 false (N - 1) = .error N := by
  unfold should_coalesce_fwd_send_bwd_recv
  have hlt : N - 1 < N := by omega
  have h1 : is_1f1b_step N N 0 false (N - 1) = .ok false := by
    unfold is_1f1b_step
    rw [shf_eval (by omega), pand_ok_left,
      if_pos (by simp only [decide_eq_true_eq]; omega),
      shb_eval (by omega)]
    simp
  have h2 : is_warmup_step N N 0 false (N - 1) = .ok true := by
    rw [is_warmup_eval (by omega) le_rfl]
    simp [hlt]
  have hNN : N - 1 + 1 = N := by ring
  have h3 : is_cooldown_step N N 0 false N = .error N := by
    unfold is_cooldown_step
    rw [shf_eval (by omega), pnot_ok, pand_ok_left,
      if_pos (by simp), shb_err (by omega)]
  rw [h1, por_ok_left]
  simp only [Bool.false_eq_true, if_false]
  rw [h2, pand_ok_left, if_pos rfl, hNN, h3, por_err]

lemma oneF1BStepBody_ok_false {N S s : ℤ}
    (hW : warmup_steps N S s = 0) (i : ℕ) (hi : (i : ℤ) < N - 1)
    (evs : List Event1) (b : ℕ) :
    oneF1BStepBody N S s false (evs, b) i = .ok (evs ++ [Event1.fwd i], b) := by
  have hT : total_steps N S s = N := by
    rw [total_steps_eq, hW, add_zero]
  have h0 : (0 : ℤ) ≤ (i : ℤ) := Int.natCast_nonneg i
  have hscf : ∃ b, should_coalesce_fwd_send_bwd_recv N (total_steps N S s)
      (warmup_steps N S s) false (i : ℤ) = .ok b := by
    rw [hT, hW]
    unfold should_coalesce_fwd_send_bwd_recv
    have hltN : (i : ℤ) < N := by omega
    have h1 : is_1f1b_step N N 0 false i = .ok false := by
      unfold is_1f1b_step
      rw [shf_eval h0, pand_ok_left,
        if_pos (by simp only [decide_eq_true_eq]; omega),
        shb_eval (by omega)]
      simp
    have h2 : is_warmup_step N N 0 false i = .ok true := by
      rw [is_warmup_eval h0 le_rfl]
      simp [hltN]
    have h3 : is_cooldown_step N N 0 false ((i : ℤ) + 1) = .ok false := by
      rw [is_cooldown_eval (by omega) (by omega)]
      have : (i : ℤ) + 1 < N := by omega
      simp [this]
    rw [h1, por_ok_left]
    simp only [Bool.false_eq_true, if_false]
    rw [h2, pand_ok_left, if_pos rfl, h3, por_ok_left]
    simp only [Bool.false_eq_true, if_false]
    have hpure : (pure (decide ((1:ℤ) ≤ (i : ℤ))) : Except ℤ Bool) =
        .ok (decide (1 ≤ (i : ℤ))) := rfl
    rw [hpure, pand_ok_left]
    by_cases h1i : (1 : ℤ) ≤ (i : ℤ)
    · rw [if_pos (by simpa using h1i)]
      have hlt1 : (i : ℤ) - 1 < N := by omega
      rw [is_warmup_eval (by omega) le_rfl, pand_ok_left,
        if_pos (by simp [hlt1]), is_cooldown_eval h0 (by omega)]
      exact ⟨_, rfl⟩
    · rw [if_neg (by simpa using h1i)]
      exact ⟨false, rfl⟩
  unfold oneF1BStepBody
  dsimp only
  rw [shf_eval h0, ok_bind]
  have hiN : (i : ℤ) < N := by omega
  simp only [hiN, decide_True, if_true]
  rw [bind_discard_ok (scBSFR_ok (by omega) (by omega)) _]
  rw [bind_discard_ok hscf _]
  rw [pure_bind, shb_eval (by omega), ok_bind]
  rw [hW]
  simp [pure, Except.pure]

lemma oneF1BStepBody_err_last {N S s : ℤ} (hN : 1 ≤ N)
    (hW : warmup_steps N S s = 0) (evs : List Event1) (b : ℕ) :
    oneF1BStepBody N S s false (evs, b) (N - 1).toNat = .error N := by
  have hT : total_steps N S s = N := by
    rw [total_steps_eq, hW, add_zero]
  have hcast : (((N - 1).toNat : ℤ)) = N - 1 := by omega
  unfold oneF1BStepBody
  dsimp only
  rw [hcast, shf_eval (by omega), ok_bind]
  have hiN : N - 1 < N := by omega
  simp only [hiN, decide_True, if_true]
  rw [bind_discard_ok (scBSFR_ok (by omega) (by omega)) _]
  rw [hT, hW, scFSBR_err_last hN]
  rfl

/-- C5 core: `Schedule1F1B._step_microbatches` with `has_backward =
    False` and `warmup_steps = 0` raises the `step_has_backward`
    assertion (failing argument `N`) at the last forward step. -/
lemma run1F1B_no_backward_err {N S s : ℤ} (hN : 1 ≤ N)
    (hW : warmup_steps N S s = 0) :
    run1F1B N S s false = .error N := by
  have hT : total_steps N S s = N := by
    rw [total_steps_eq, hW, add_zero]
  have hfold : ∀ k : ℕ, (k : ℤ) ≤ N - 1 →
      (List.range k).foldlM (oneF1BStepBody N S s false)
          ([Event1.cfg false], 0) =
        .ok (Event1.cfg false :: (List.range k).map Event1.fwd, 0) := by
    intro k hk
    induction k with
    | zero => simp [pure, Except.pure]
    | succ k ih =>
      rw [List.range_succ, List.foldlM_append, ih (by omega), ok_bind]
      simp only [List.foldlM_cons, List.foldlM_nil]
      rw [oneF1BStepBody_ok_false hW k (by omega), ok_bind]
      simp [pure, Except.pure, List.range_succ]
  unfold run1F1B
  have hM : (total_steps N S s).toNat = ((N - 1).toNat) + 1 := by omega
  rw [hM, List.range_succ, List.foldlM_append,
    hfold ((N - 1).toNat) (by omega), ok_bind]
  simp only [List.foldlM_cons, List.foldlM_nil]
  rw [oneF1BStepBody_err_last hN hW]
  rfl

/-! ### Counting and infix helpers -/

lemma countP_flatMap {α β : Type} (p : β → Bool) (g : α → List β) :
    ∀ l : List α,
      (l.flatMap g).countP p = (l.map (fun a => (g a).countP p)).sum := by
  intro l
  induction l with
  | nil => simp
  | cons a l ih =>
    simp [List.flatMap_cons, List.countP_append, ih]

lemma sum_map_ite_mem {α : Type} [DecidableEq α] :
    ∀ (l : List α), l.Nodup → ∀ x ∈ l, ∀ g : α → ℕ,
      (∀ y ∈ l, g y = if y = x then 1 else 0) → (l.map g).sum = 1 := by
  intro l
  induction l with
  | nil => intro _ x hx; simp at hx
  | cons a l ih =>
    intro hnd x hx g hg
    rcases List.mem_cons.mp hx with rfl | hx'
    · have ha : g x = 1 := by rw [hg x (List.mem_cons_self x l)]; simp
      have hrest : (l.map g).sum = 0 := by
        rw [List.sum_eq_zero]
        intro n hn
        rcases List.mem_map.mp hn with ⟨y, hy, rfl⟩
        rw [hg y (List.mem_cons_of_mem _ hy)]
        have : y ≠ x := by
          intro hc
          exact (List.nodup_cons.mp hnd).1 (hc ▸ hy)
        simp [this]
      simp [ha, hrest]
    · have ha : g a = 0 := by
        rw [hg a (List.mem_cons_self a l)]
        have : a ≠ x := by
          intro hc
          exact (List.nodup_cons.mp hnd).1 (hc ▸ hx')
        simp [this]
      have := ih (List.nodup_cons.mp hnd).2 x hx' g
        (fun y hy => hg y (List.mem_cons_of_mem _ hy))
      simp [ha, this]

lemma countP_flatMap_single {α β : Type} [DecidableEq α] (p : β → Bool)
    (g : α → List β) (l : List α) (hnd : l.Nodup) (x : α) (hx : x ∈ l)
    (hg : ∀ y ∈ l, (g y).countP p = if y = x then 1 else 0) :
    (l.flatMap g).countP p = 1 := by
  rw [countP_flatMap]
  exact sum_map_ite_mem l hnd x hx _ hg

lemma isInfix_append_left {α : Type} {p t : List α} (s : List α)
    (h : p <:+: t) : p <:+: s ++ t := by
  obtain ⟨u, v, huv⟩ := h
  exact ⟨s ++ u, v, by rw [← huv]; simp⟩

lemma isInfix_flatMap_of_mem {α β : Type} {g : α → List β} {p : List β}
    {y : α} {l : List α} (hy : y ∈ l) (h : p <:+: g y) :
    p <:+: l.flatMap g := by
  obtain ⟨s1, t1, rfl⟩ := List.append_of_mem hy
  obtain ⟨u, v, huv⟩ := h
  refine ⟨s1.flatMap g ++ u, v ++ t1.flatMap g, ?_⟩
  rw [List.flatMap_append, List.flatMap_cons, ← huv]
  simp

@[simp] lemma isCfgTrue1_cfg (b : Bool) : isCfgTrue1 (.cfg b) = b := by
  cases b <;> rfl

@[simp] lemma isCfgTrue1_fwd (mb : ℕ) : isCfgTrue1 (.fwd mb) = false := rfl

@[simp] lemma isCfgTrue1_bwd (mb : ℕ) : isCfgTrue1 (.bwd mb) = false := rfl

@[simp] lemma isCfgTrueM_cfg (st st' : ℕ) (b : Bool) :
    isCfgTrueM st (.cfg st' b) = (decide (st' = st) && b) := rfl

@[simp] lemma isCfgTrueM_fwd (st st' mb : ℕ) :
    isCfgTrueM st (.fwd st' mb) = false := rfl

@[simp] lemma isCfgTrueM_bwd (st st' mb : ℕ) :
    isCfgTrueM st (.bwd st' mb) = false := rfl

@[simp] lemma isCfgM_cfg (st : ℕ) (b : Bool) : isCfgM (.cfg st b) = true := rfl

@[simp] lemma isCfgM_fwd (st mb : ℕ) : isCfgM (.fwd st mb) = false := rfl

@[simp] lemma isCfgM_bwd (st mb : ℕ) : isCfgM (.bwd st mb) = false := rfl

@[simp] lemma isBwdM_cfg (st : ℕ) (b : Bool) : isBwdM (.cfg st b) = false := rfl

@[simp] lemma isBwdM_fwd (st mb : ℕ) : isBwdM (.fwd st mb) = false := rfl

@[simp] lemma isBwdM_bwd (st mb : ℕ) : isBwdM (.bwd st mb) = true := rfl

/-! ### C1 components: one configure(last_backward=True) per stage -/

/-- GPipe: with a loss function, `configure(True)` fires exactly once,
    immediately before the backward of microbatch `n-1`. -/
lemma gpipe_cfg_once (n : ℕ) (hn : 1 ≤ n) :
    (gpipeEvents n true).countP isCfgTrue1 = 1 ∧
      [Event1.cfg true, Event1.bwd (n - 1)] <:+: gpipeEvents n true := by
  obtain ⟨m, rfl⟩ : ∃ m, n = m + 1 := ⟨n - 1, by omega⟩
  unfold gpipeEvents
  simp only [if_true, Nat.add_sub_cancel]
  constructor
  · rw [List.countP_append]
    have h1 : ((List.range (m + 1)).map Event1.fwd).countP isCfgTrue1 = 0 := by
      rw [List.countP_eq_zero]
      intro e he
      rcases List.mem_map.mp he with ⟨i, _, rfl⟩
      simp
    have h2 : ((List.range (m + 1)).flatMap
        (fun i => [Event1.cfg (decide (i = m)), Event1.bwd i])).countP
          isCfgTrue1 = 1 := by
      refine countP_flatMap_single _ _ _ (List.nodup_range _) m
        (List.mem_range.mpr (by omega)) ?_
      intro y _
      by_cases hy : y = m <;>
        simp [List.countP_cons, hy]
    rw [h1, h2]
  · refine isInfix_append_left _ ?_
    refine isInfix_flatMap_of_mem (List.mem_range.mpr (show m < m + 1 by omega)) ?_
    simp

/-- 1F1B: with a loss function, the iteration completes, `configure(True)`
    fires exactly once, immediately before the backward of microbatch
    `N-1`, and the loop exits with `bwd_mb_index = N`. -/
lemma onef1b_cfg_once {N S s : ℤ} (hs : s < S) (hN : 1 ≤ N) :
    ∃ tr, run1F1B N S s true = .ok (tr, N.toNat) ∧
      tr.countP isCfgTrue1 = 1 ∧
      [Event1.cfg true, Event1.bwd (N.toNat - 1)] <:+: tr := by
  have hW0 : 0 ≤ warmup_steps N S s := warmup_steps_nonneg hs (by omega)
  have hT := total_steps_eq (N := N) (S := S) (s := s)
  have hM1 : 1 ≤ (total_steps N S s).toNat := by omega
  refine ⟨_, run1F1B_closed hs (by omega), ?_, ?_⟩
  · rw [List.countP_cons]
    simp only [isCfgTrue1_cfg, if_false, Bool.false_eq_true]
    have h2 : ((List.range (total_steps N S s).toNat).flatMap
        (onef1bStepEvents N S s)).countP isCfgTrue1 = 1 := by
      refine countP_flatMap_single _ _ _ (List.nodup_range _)
        ((total_steps N S s).toNat - 1)
        (List.mem_range.mpr (by omega)) ?_
      intro y hy
      have hy' : y < (total_steps N S s).toNat := List.mem_range.mp hy
      unfold onef1bStepEvents
      rw [List.countP_append]
      by_cases hyl : y = (total_steps N S s).toNat - 1
      · subst hyl
        have hflag : ((((total_steps N S s).toNat - 1 : ℕ) : ℤ) =
            total_steps N S s - 1) := by omega
        have hwy : warmup_steps N S s ≤
            (((total_steps N S s).toNat - 1 : ℕ) : ℤ) := by omega
        have hc1 : warmup_steps N S s ≤ total_steps N S s - 1 := by omega
        by_cases hc0 : total_steps N S s - 1 < N <;>
          simp [hflag, hc1, hc0, List.countP_cons]
      · have hflag : ¬ ((y : ℤ) = total_steps N S s - 1) := by omega
        by_cases hwy : warmup_steps N S s ≤ (y : ℤ) <;>
          simp [hyl, hflag, hwy, List.countP_cons]
    rw [h2]
  · refine isInfix_append_left [Event1.cfg false] ?_
    refine isInfix_flatMap_of_mem
      (List.mem_range.mpr (show (total_steps N S s).toNat - 1 <
        (total_steps N S s).toNat by omega)) ?_
    unfold onef1bStepEvents
    have hflag : (((total_steps N S s).toNat - 1 : ℕ) : ℤ) =
        total_steps N S s - 1 := by omega
    have hwy : warmup_steps N S s ≤
        (((total_steps N S s).toNat - 1 : ℕ) : ℤ) := by omega
    have hbwd : (total_steps N S s).toNat - 1 -
        (warmup_steps N S s).toNat = N.toNat - 1 := by omega
    rw [if_pos hwy, hflag, hbwd]
    exact ⟨(if total_steps N S s - 1 < N then
      [Event1.fwd ((total_steps N S s).toNat - 1)] else []), [], by simp⟩

/-- Looped BFS: each local stage gets `configure(True)` exactly once, on
    its backward of microbatch `n-1`. -/
lemma looped_cfg_once (stages : List ℕ) (hnd : stages.Nodup) (n : ℕ)
    (hn : 1 ≤ n) (st : ℕ) (hst : st ∈ stages) :
    (loopedBFSEvents stages n).countP (isCfgTrueM st) = 1 ∧
      [EventM.cfg st true, EventM.bwd st (n - 1)] <:+:
        loopedBFSEvents stages n := by
  unfold loopedBFSEvents
  constructor
  · rw [List.countP_append]
    have h1 : (stages.flatMap
        (fun s' => (List.range n).map (EventM.fwd s'))).countP
          (isCfgTrueM st) = 0 := by
      rw [List.countP_eq_zero]
      intro e he
      rcases List.mem_flatMap.mp he with ⟨s', _, he'⟩
      rcases List.mem_map.mp he' with ⟨i, _, rfl⟩
      simp
    have h2 : (stages.reverse.flatMap (fun s' =>
        (List.range n).flatMap (fun i =>
          [EventM.cfg s' (decide (i = n - 1)), EventM.bwd s' i]))).countP
          (isCfgTrueM st) = 1 := by
      refine countP_flatMap_single _ _ _ (by simpa using hnd) st
        (List.mem_reverse.mpr hst) ?_
      intro y _
      by_cases hy : y = st
      · subst hy
        rw [if_pos rfl]
        refine countP_flatMap_single _ _ _ (List.nodup_range _) (n - 1)
          (List.mem_range.mpr (by omega)) ?_
        intro i _
        by_cases hi : i = n - 1 <;>
          simp [List.countP_cons, hi]
      · rw [if_neg hy]
        rw [List.countP_eq_zero]
        intro e he
        rcases List.mem_flatMap.mp he with ⟨i, _, he'⟩
        rcases List.mem_cons.mp he' with rfl | he''
        · simp [hy]
        · rcases List.mem_cons.mp he'' with rfl | he3
          · simp
          · simp at he3
    rw [h1, h2]
  · refine isInfix_append_left _ ?_
    refine isInfix_flatMap_of_mem (List.mem_reverse.mpr hst) ?_
    refine isInfix_flatMap_of_mem
      (List.mem_range.mpr (show n - 1 < n by omega)) ?_
    simp

lemma bind_ok_inv {ε α β : Type} {a : Except ε α} {f : α → Except ε β}
    {v : β} (h : a >>= f = .ok v) : ∃ x, a = .ok x ∧ f x = .ok v := by
  cases a with
  | ok x => exact ⟨x, rfl, h⟩
  | error e => exact absurd h (by simp [Bind.bind, Except.bind])

/-- The interleaved executor issues no `configure_data_parallel_mode`
    call at any time step: its per-step events are forwards and
    backwards only. -/
lemma interleavedStepAt_no_cfg (G L N rank : ℕ)
    (myRow prevRow nextRow : List (Option Action)) (t : ℕ)
    (l : List EventM)
    (h : interleavedStepAt G L N rank myRow prevRow nextRow t = .ok l) :
    l.countP isCfgM = 0 := by
  unfold interleavedStepAt at h
  obtain ⟨evs, ha, hrest⟩ := bind_ok_inv h
  obtain ⟨u1, _, hrest2⟩ := bind_ok_inv hrest
  obtain ⟨u2, _, hpure⟩ := bind_ok_inv hrest2
  have hl : l = evs := by
    have : (pure evs : Except String (List EventM)) = .ok evs := rfl
    rw [this] at hpure
    exact (Except.ok.injEq _ _ ▸ hpure).symm
  subst hl
  rcases hcase : myRow.getD t none with _ | ⟨ct, mb, si⟩
  · rw [hcase] at ha
    simp only [pure, Except.pure, Except.ok.injEq] at ha
    subst ha
    rfl
  · rw [hcase] at ha
    cases ct with
    | FORWARD =>
      dsimp only at ha
      by_cases hmem : si ∈ ownedStages G L rank
      · rw [if_pos hmem] at ha
        simp only [pure, Except.pure, Except.ok.injEq] at ha
        subst ha
        rfl
      · rw [if_neg hmem] at ha
        exact absurd ha (by simp)
    | BACKWARD =>
      dsimp only at ha
      by_cases hmem : si ∈ ownedStages G L rank
      · rw [if_pos hmem] at ha
        simp only [pure, Except.pure, Except.ok.injEq] at ha
        subst ha
        rfl
      · rw [if_neg hmem] at ha
        exact absurd ha (by simp)

lemma mapM_ok_mem {α β : Type} (f : α → Except String β) :
    ∀ (l : List α) (ys : List β), l.mapM f = .ok ys →
      ∀ y ∈ ys, ∃ x, f x = .ok y := by
  intro l
  induction l with
  | nil =>
    intro ys h y hy
    have : ys = [] := by
      simp only [List.mapM_nil, pure, Except.pure, Except.ok.injEq] at h
      exact h.symm
    subst this
    simp at hy
  | cons a l ih =>
    intro ys h y hy
    rw [List.mapM_cons] at h
    obtain ⟨x, hx, h2⟩ := bind_ok_inv h
    obtain ⟨xs, hxs, h3⟩ := bind_ok_inv h2
    have hys : ys = x :: xs := by
      simp only [pure, Except.pure, Except.ok.injEq] at h3
      exact h3.symm
    subst hys
    rcases List.mem_cons.mp hy with rfl | hy'
    · exact ⟨a, hx⟩
    · exact ih xs hxs y hy'

/-- Interleaved 1F1B issues no `configure_data_parallel_mode` calls in
    `_step_microbatches` at all. -/
lemma interleaved_no_cfg (G L N rank : ℕ) (evs : List EventM)
    (h : runInterleaved1F1B G L N rank = .ok evs) :
    evs.countP isCfgM = 0 := by
  unfold runInterleaved1F1B at h
  obtain ⟨evss, hm, hp⟩ := bind_ok_inv h
  have hflat : evs = evss.flatten := by
    simp only [pure, Except.pure, Except.ok.injEq] at hp
    exact hp.symm
  subst hflat
  rw [List.countP_eq_zero]
  intro e he
  rcases List.mem_flatten.mp he with ⟨l', hl', hel⟩
  obtain ⟨t, ht⟩ := mapM_ok_mem _ _ _ hm l' hl'
  have hz := interleavedStepAt_no_cfg _ _ _ _ _ _ _ _ _ ht
  have := List.countP_eq_zero.mp hz e hel
  exact this

/-- C1 counterexample: with G=2 ranks, L=2 local stages, N=2
    microbatches, rank 0 of Interleaved 1F1B completes an iteration
    running 4 backward chunks but issues zero
    `configure_data_parallel_mode` calls — not "exactly once per stage",
    refuting the claim's "and likewise for Interleaved 1F1B". -/
theorem interleaved_issues_no_configure :
    (runInterleaved1F1B 2 2 2 0).toOption.map
      (fun evs => (evs.countP isCfgM, evs.countP isBwdM)) = some (0, 4) := by
  decide

/-- C1 (amended): when `has_backward` holds and `n ≥ 1`, GPipe, 1F1B and
    Looped BFS each issue `configure_data_parallel_mode(True)` exactly
    once per stage per iteration, immediately before that stage's final
    backward microbatch (`n-1`; for 1F1B this is step `total-1`), while
    Interleaved 1F1B issues no `configure_data_parallel_mode` call at
    all. -/
theorem configure_last_backward_once (n : ℕ) (hn : 1 ≤ n) :
    ((gpipeEvents n true).countP isCfgTrue1 = 1 ∧
      [Event1.cfg true, Event1.bwd (n - 1)] <:+: gpipeEvents n true) ∧
    (∀ S s : ℤ, s < S →
      ∃ tr, run1F1B (n : ℤ) S s true = .ok (tr, n) ∧
        tr.countP isCfgTrue1 = 1 ∧
        [Event1.cfg true, Event1.bwd (n - 1)] <:+: tr) ∧
    (∀ stages : List ℕ, stages.Nodup → ∀ st ∈ stages,
      (loopedBFSEvents stages n).countP (isCfgTrueM st) = 1 ∧
      [EventM.cfg st true, EventM.bwd st (n - 1)] <:+:
        loopedBFSEvents stages n) ∧
    (∀ G L N rank : ℕ, ∀ evs : List EventM,
      runInterleaved1F1B G L N rank = .ok evs →
      evs.countP isCfgM = 0) := by
  refine ⟨gpipe_cfg_once n hn, ?_, ?_, ?_⟩
  · intro S s hs
    obtain ⟨tr, hrun, hcount, hinf⟩ := onef1b_cfg_once (N := (n : ℤ)) hs
      (by omega)
    refine ⟨tr, ?_, hcount, ?_⟩
    · have : ((n : ℤ)).toNat = n := by omega
      rw [← this]
      exact hrun
    · have : ((n : ℤ)).toNat - 1 = n - 1 := by omega
      rw [← this]
      exact hinf
  · intro stages hnd st hst
    exact looped_cfg_once stages hnd n hn st hst
  · intro G L N rank evs h
    exact interleaved_no_cfg G L N rank evs h

/-- C1 witness: the amended statement instantiated at n=2 (1F1B on
    stage 0 of 2; Looped BFS on local stages [0, 1]). -/
theorem configure_last_backward_once_witness :
    (gpipeEvents 2 true).countP isCfgTrue1 = 1 ∧
    (∃ tr, run1F1B 2 2 0 true = .ok (tr, 2) ∧
      tr.countP isCfgTrue1 = 1 ∧
      [Event1.cfg true, Event1.bwd 1] <:+: tr) ∧
    (loopedBFSEvents [0, 1] 2).countP (isCfgTrueM 1) = 1 := by
  obtain ⟨h1, h2, h3, _⟩ := configure_last_backward_once 2 (by decide)
  exact ⟨h1.1, by simpa using h2 2 0 (by decide),
    (h3 [0, 1] (by decide) 1 (by decide)).1⟩

/-- C5: in `Schedule1F1B._step_microbatches` with `has_backward = False`
    and `warmup_steps = 0` (the last stage) and `N ≥ 1`, the loop raises
    an AssertionError at the last forward step `i = N-1`:
    `should_coalesce_fwd_send_bwd_recv(N-1)` evaluates
    `is_cooldown_step(N)`, whose `step_has_backward(N)` assertion
    `N < total_steps` fails because `total_steps = N`; the iteration
    never completes (the run is an error, with failing assertion
    argument `N`). -/
theorem onef1b_no_loss_last_stage_asserts (N S s : ℤ) (hN : 1 ≤ N)
    (hW : warmup_steps N S s = 0) :
    total_steps N S s = N ∧ run1F1B N S s false = .error N :=
  ⟨by rw [total_steps_eq, hW, add_zero],
    run1F1B_no_backward_err hN hW⟩

/-- C5 witness: S=4 stages, stage_index=3 (last), N=4, no loss
    function. -/
theorem onef1b_no_loss_last_stage_asserts_witness :
    total_steps 4 4 3 = 4 ∧ run1F1B 4 4 3 false = .error 4 :=
  onef1b_no_loss_last_stage_asserts 4 4 3 (by decide) (by decide)

/-! ### Closed form of the interleaved planner -/

/-- The forward microbatch counter value consumed at step `j`: the
    number of earlier steps addressing the same forward stage. -/
def planMbF (G L rank j : ℕ) : ℕ :=
  (List.range j).countP
    (fun i => decide (forward_stage_index G L rank i =
      forward_stage_index G L rank j))

/-- The backward microbatch counter value consumed at step `j`: the
    number of earlier backward-emitting steps (those `≥ warmup`)
    addressing the same backward stage. -/
def planMbB (G L N rank j : ℕ) : ℕ :=
  (List.range j).countP
    (fun i => decide (get_rank_warmup_steps G L N rank ≤ i ∧
      backward_stage_index G L N rank i = backward_stage_index G L N rank j))

/-- The slots appended by planning step `j` (closed form). -/
def planStepEmits (G L N rank j : ℕ) : List (Option Action) :=
  let warmup := get_rank_warmup_steps G L N rank
  if j < warmup then
    [some (.FORWARD, planMbF G L rank j, forward_stage_index G L rank j)] ++
      (if j = warmup - 1 then
        List.replicate (if rank = 0 then 2 else 0) none
      else [])
  else if j < warmup + fwd_bwd_steps G L N rank then
    [some (.FORWARD, planMbF G L rank j, forward_stage_index G L rank j),
      some (.BACKWARD, planMbB G L N rank j,
        backward_stage_index G L N rank j)]
  else
    [none, some (.BACKWARD, planMbB G L N rank j,
      backward_stage_index G L N rank j)]

lemma warmup_le_LN (G L N rank : ℕ) :
    get_rank_warmup_steps G L N rank ≤ L * N := by
  unfold get_rank_warmup_steps
  rw [Nat.mul_comm L N]
  exact min_le_right _ _

lemma warmup_add_fwd_bwd (G L N rank : ℕ) :
    get_rank_warmup_steps G L N rank + fwd_bwd_steps G L N rank = L * N := by
  have := warmup_le_LN G L N rank
  unfold fwd_bwd_steps
  omega

lemma total_interleaved_eq (G L N rank : ℕ) :
    total_steps_interleaved G L N rank =
      get_rank_warmup_steps G L N rank + L * N := by
  have h1 := warmup_le_LN G L N rank
  unfold total_steps_interleaved cooldown_steps_interleaved fwd_bwd_steps
  omega


/-- Invariant characterization of the planning fold. -/
lemma plan_fold (G L N rank : ℕ) :
    ∀ k, k ≤ total_steps_interleaved G L N rank →
      (List.range k).foldl (planStep G L N rank)
          ⟨fun _ => 0, fun _ => 0, List.replicate rank none,
            if rank = 0 then 2 else 0⟩ =
        { fwdCnt := fun x => (List.range (min k (L * N))).countP
            (fun j => decide (forward_stage_index G L rank j = x)),
          bwdCnt := fun x => (List.range k).countP
            (fun j => decide (get_rank_warmup_steps G L N rank ≤ j ∧
              backward_stage_index G L N rank j = x)),
          ops := List.replicate rank none ++
            (List.range k).flatMap (planStepEmits G L N rank),
          postWarmup := if 1 ≤ get_rank_warmup_steps G L N rank ∧
              get_rank_warmup_steps G L N rank ≤ k then 0
            else if rank = 0 then 2 else 0 } := by
  intro k hk
  induction k with
  | zero =>
    have hW1 : ¬ (1 ≤ get_rank_warmup_steps G L N rank ∧
        get_rank_warmup_steps G L N rank ≤ 0) := by omega
    have hW2 : ¬ (1 ≤ get_rank_warmup_steps G L N rank ∧
        get_rank_warmup_steps G L N rank = 0) := by omega
    refine PlanState.ext ?_ ?_ ?_ ?_ <;> simp [hW1, hW2]
  | succ k ih =>
    have hk' : k ≤ total_steps_interleaved G L N rank := by omega
    rw [List.range_succ, List.foldl_append, ih hk']
    simp only [List.foldl_cons, List.foldl_nil]
    have hWLN := warmup_le_LN G L N rank
    have hWFB := warmup_add_fwd_bwd G L N rank
    have hTot := total_interleaved_eq G L N rank
    unfold planStep
    dsimp only
    by_cases hA : k < get_rank_warmup_steps G L N rank
    · -- warmup phase
      rw [if_pos hA]
      have hmin : min k (L * N) = k := by omega
      have hmin' : min (k + 1) (L * N) = k + 1 := by omega
      refine PlanState.ext ?_ ?_ ?_ ?_
      · -- fwdCnt
        funext x
        dsimp only
        simp only [hmin, hmin']
        rw [List.range_succ, List.countP_append]
        by_cases hx : x = forward_stage_index G L rank k
        · subst hx
          simp [List.countP_cons]
        · have hx' : ¬ (forward_stage_index G L rank k = x) :=
            fun hc => hx hc.symm
          simp [hx, hx', List.countP_cons]
      · -- bwdCnt
        funext x
        dsimp only
        rw [List.countP_append]
        have hno : ¬ (get_rank_warmup_steps G L N rank ≤ k ∧
            backward_stage_index G L N rank k = x) := by omega
        simp [hno]
      · -- ops
        dsimp only
        simp only [hmin]
        rw [List.flatMap_append]
        have hpw : (if 1 ≤ get_rank_warmup_steps G L N rank ∧
            get_rank_warmup_steps G L N rank ≤ k then 0
          else if rank = 0 then 2 else 0) = (if rank = 0 then 2 else 0) := by
          rw [if_neg (by omega)]
        rw [hpw]
        simp only [List.flatMap_cons, List.flatMap_nil, List.append_nil]
        rw [planStepEmits]
        try dsimp only
        rw [if_pos hA, planMbF]
        by_cases hlast : k = get_rank_warmup_steps G L N rank - 1 <;>
          simp [hlast, List.append_assoc]
      · -- postWarmup
        dsimp only
        have hpw : (if 1 ≤ get_rank_warmup_steps G L N rank ∧
            get_rank_warmup_steps G L N rank ≤ k then 0
          else if rank = 0 then 2 else 0) = (if rank = 0 then 2 else 0) := by
          rw [if_neg (by omega)]
        rw [hpw]
        by_cases hlast : k = get_rank_warmup_steps G L N rank - 1
        · have hcond : 1 ≤ get_rank_warmup_steps G L N rank ∧
              get_rank_warmup_steps G L N rank ≤ k + 1 := by omega
          rw [if_pos hlast, if_pos hcond]
        · have hcond : ¬ (1 ≤ get_rank_warmup_steps G L N rank ∧
              get_rank_warmup_steps G L N rank ≤ k + 1) := by omega
          rw [if_neg hlast, if_neg hcond]
    · by_cases hB : k < get_rank_warmup_steps G L N rank +
          fwd_bwd_steps G L N rank
      · -- 1f1b phase
        rw [if_neg hA, if_pos hB]
        have hmin : min k (L * N) = k := by omega
        have hmin' : min (k + 1) (L * N) = k + 1 := by omega
        refine PlanState.ext ?_ ?_ ?_ ?_
        · funext x
          dsimp only
          simp only [hmin, hmin']
          rw [List.range_succ, List.countP_append]
          by_cases hx : x = forward_stage_index G L rank k
          · subst hx
            simp [List.countP_cons]
          · have hx' : ¬ (forward_stage_index G L rank k = x) :=
              fun hc => hx hc.symm
            simp [hx, hx', List.countP_cons]
        · funext x
          dsimp only
          rw [List.countP_append]
          by_cases hx : x = backward_stage_index G L N rank k
          · subst hx
            simp [planMbB, List.countP_cons, show
              get_rank_warmup_steps G L N rank ≤ k by omega]
          · have hx' : ¬ (get_rank_warmup_steps G L N rank ≤ k ∧
                backward_stage_index G L N rank k = x) := by
              intro hc
              exact hx hc.2.symm
            simp [hx, hx', List.countP_cons]
        · dsimp only
          simp only [hmin]
          rw [List.flatMap_append]
          simp only [List.flatMap_cons, List.flatMap_nil, List.append_nil]
          rw [planStepEmits]
          try dsimp only
          rw [if_neg hA, if_pos hB, planMbF, planMbB]
          simp [List.append_assoc]
        · dsimp only
          have h1 : (1 ≤ get_rank_warmup_steps G L N rank ∧
              get_rank_warmup_steps G L N rank ≤ k) ↔
              (1 ≤ get_rank_warmup_steps G L N rank ∧
              get_rank_warmup_steps G L N rank ≤ k + 1) := by omega
          by_cases hc : 1 ≤ get_rank_warmup_steps G L N rank ∧
              get_rank_warmup_steps G L N rank ≤ k
          · rw [if_pos hc, if_pos (h1.mp hc)]
          · rw [if_neg hc, if_neg (fun hc2 => hc (h1.mpr hc2))]
      · -- cooldown phase
        rw [if_neg hA, if_neg hB]
        have hmin : min k (L * N) = L * N := by omega
        have hmin' : min (k + 1) (L * N) = L * N := by omega
        refine PlanState.ext ?_ ?_ ?_ ?_
        · funext x
          try dsimp only
          try simp only [hmin, hmin']
        · funext x
          dsimp only
          rw [List.countP_append]
          by_cases hx : x = backward_stage_index G L N rank k
          · subst hx
            simp [planMbB, List.countP_cons, show
              get_rank_warmup_steps G L N rank ≤ k by omega]
          · have hx' : ¬ (get_rank_warmup_steps G L N rank ≤ k ∧
                backward_stage_index G L N rank k = x) := by
              intro hc
              exact hx hc.2.symm
            simp [hx, hx', List.countP_cons]
        · dsimp only
          try simp only [hmin]
          rw [List.flatMap_append]
          simp only [List.flatMap_cons, List.flatMap_nil, List.append_nil]
          rw [planStepEmits]
          try dsimp only
          rw [if_neg hA, if_neg hB, planMbB]
          simp [List.append_assoc]
        · dsimp only
          have h1 : (1 ≤ get_rank_warmup_steps G L N rank ∧
              get_rank_warmup_steps G L N rank ≤ k) ↔
              (1 ≤ get_rank_warmup_steps G L N rank ∧
              get_rank_warmup_steps G L N rank ≤ k + 1) := by omega
          by_cases hc : 1 ≤ get_rank_warmup_steps G L N rank ∧
              get_rank_warmup_steps G L N rank ≤ k
          · rw [if_pos hc, if_pos (h1.mp hc)]
          · rw [if_neg hc, if_neg (fun hc2 => hc (h1.mpr hc2))]

/-- Closed form of `_calculate_single_rank_operations`. -/
lemma calc_rank_ops_closed (G L N rank : ℕ) :
    _calculate_single_rank_operations G L N rank =
      List.replicate rank none ++
        (List.range (total_steps_interleaved G L N rank)).flatMap
          (planStepEmits G L N rank) ++
        List.replicate (G - rank - 1) none := by
  unfold _calculate_single_rank_operations
  dsimp only
  rw [plan_fold G L N rank _ le_rfl]

/-! ### Generic list lemmas for the timeline extraction -/

lemma countP_congr {α : Type} {p q : α → Bool} :
    ∀ {l : List α}, (∀ a ∈ l, p a = q a) → l.countP p = l.countP q := by
  intro l
  induction l with
  | nil => intro _; rfl
  | cons a l ih =>
    intro h
    rw [List.countP_cons, List.countP_cons, h a (List.mem_cons_self a l),
      ih (fun b hb => h b (List.mem_cons_of_mem _ hb))]

lemma filterMap_flatMap {α β γ : Type} (f : β → Option γ) (g : α → List β) :
    ∀ l : List α,
      (l.flatMap g).filterMap f = l.flatMap (fun a => (g a).filterMap f) := by
  intro l
  induction l with
  | nil => rfl
  | cons a l ih =>
    simp only [List.flatMap_cons, List.filterMap_append, ih]

lemma flatMap_if_singleton {α β : Type} (p : α → Prop) [DecidablePred p]
    (h : α → β) :
    ∀ l : List α,
      (l.flatMap (fun a => if p a then [h a] else [])) =
        (l.filter (fun a => decide (p a))).map h := by
  intro l
  induction l with
  | nil => rfl
  | cons a l ih =>
    by_cases ha : p a <;>
      simp [List.flatMap_cons, List.filter_cons, ha, ih]

lemma filterMap_replicate_none {γ : Type} (f : Option Action → Option γ)
    (hf : f none = none) (n : ℕ) :
    (List.replicate n (none : Option Action)).filterMap f = [] := by
  induction n with
  | zero => rfl
  | succ n ih => simp [List.replicate_succ, hf, ih]

lemma filter_range_and_lt (M E : ℕ) (q : ℕ → Prop) [DecidablePred q] :
    (List.range (M + E)).filter (fun j => decide (j < M ∧ q j)) =
      (List.range M).filter (fun j => decide (q j)) := by
  rw [List.range_add, List.filter_append]
  have h1 : (List.range M).filter (fun j => decide (j < M ∧ q j)) =
      (List.range M).filter (fun j => decide (q j)) := by
    refine List.filter_congr' ?_
    intro j hj
    have : j < M := List.mem_range.mp hj
    simp [this]
  have h2 : ((List.range E).map (M + ·)).filter
      (fun j => decide (j < M ∧ q j)) = [] := by
    rw [List.filter_eq_nil_iff]
    intro j hj
    rcases List.mem_map.mp hj with ⟨d, _, rfl⟩
    simp
  rw [h1, h2, List.append_nil]

lemma filter_range_and_le (W M : ℕ) (q : ℕ → Prop) [DecidablePred q] :
    (List.range (W + M)).filter (fun j => decide (W ≤ j ∧ q j)) =
      ((List.range M).filter (fun d => decide (q (W + d)))).map (W + ·) := by
  rw [List.range_add, List.filter_append]
  have h1 : (List.range W).filter (fun j => decide (W ≤ j ∧ q j)) = [] := by
    rw [List.filter_eq_nil_iff]
    intro j hj
    have : j < W := List.mem_range.mp hj
    simp
    omega
  have h2 : ((List.range M).map (W + ·)).filter
      (fun j => decide (W ≤ j ∧ q j)) =
      ((List.range M).filter (fun d => decide (q (W + d)))).map (W + ·) := by
    rw [List.map_filter]
    congr 1
    refine List.filter_congr' ?_
    intro d _
    simp [Function.comp]
  rw [h1, h2, List.nil_append]

lemma countP_range_shift (W d : ℕ) (q : ℕ → Prop) [DecidablePred q] :
    (List.range (W + d)).countP (fun i => decide (W ≤ i ∧ q i)) =
      (List.range d).countP (fun i => decide (q (W + i))) := by
  rw [List.range_add, List.countP_append]
  have h1 : (List.range W).countP (fun i => decide (W ≤ i ∧ q i)) = 0 := by
    rw [List.countP_eq_zero]
    intro i hi
    have : i < W := List.mem_range.mp hi
    simp
    omega
  rw [h1, List.countP_map]
  rw [Nat.zero_add]
  refine countP_congr ?_
  intro i _
  simp [Function.comp]

/-- The subsequence of prefix-counts of the hits of `f · = x` below `M`
    is exactly `0, 1, ..., (number of hits) - 1`. -/
lemma map_prefix_count (f : ℕ → ℕ) (x : ℕ) :
    ∀ M, ((List.range M).filter (fun j => decide (f j = x))).map
        (fun j => (List.range j).countP (fun i => decide (f i = x))) =
      List.range ((List.range M).countP (fun i => decide (f i = x))) := by
  intro M
  induction M with
  | zero => rfl
  | succ M ih =>
    rw [List.range_succ, List.filter_append, List.countP_append,
      List.map_append]
    by_cases hM : f M = x
    · have hf : (List.filter (fun j => decide (f j = x)) [M]) = [M] := by
        simp [hM]
      have hc : (List.countP (fun i => decide (f i = x)) [M]) = 1 := by
        simp [hM]
      rw [hf, hc, ih, List.range_succ]
      simp
    · have hf : (List.filter (fun j => decide (f j = x)) [M]) = [] := by
        simp [hM]
      have hc : (List.countP (fun i => decide (f i = x)) [M]) = 0 := by
        simp [hM]
      rw [hf, hc, ih]
      simp

lemma countP_range_eq_single (x : ℕ) :
    ∀ M, (List.range M).countP (fun j => decide (j = x)) =
      if x < M then 1 else 0 := by
  intro M
  induction M with
  | zero => rfl
  | succ M ih =>
    rw [List.range_succ, List.countP_append, ih]
    by_cases hx : x = M
    · subst hx
      simp [show x < x + 1 by omega, show ¬ x < x by omega]
    · by_cases hlt : x < M
      · simp [hx, hlt, show x < M + 1 by omega, show ¬ M = x by omega]
      · simp [hx, hlt, show ¬ x < M + 1 by omega, show ¬ M = x by omega]

lemma countP_range_div (G : ℕ) (hG : 0 < G) (P : ℕ → Bool) :
    ∀ Q, (List.range (G * Q)).countP (fun j => P (j / G)) =
      G * (List.range Q).countP P := by
  intro Q
  induction Q with
  | zero => simp
  | succ Q ih =>
    rw [Nat.mul_succ, List.range_add, List.countP_append, ih,
      List.countP_map, List.range_succ, List.countP_append]
    have h2 : (List.range G).countP ((fun j => P (j / G)) ∘
        (fun x => G * Q + x)) = if P Q then G else 0 := by
      have : ∀ r ∈ List.range G, ((fun j => P (j / G)) ∘
          (fun x => G * Q + x)) r = P Q := by
        intro r hr
        have hrG : r < G := List.mem_range.mp hr
        simp only [Function.comp]
        rw [Nat.mul_add_div hG, Nat.div_eq_of_lt hrG, Nat.add_zero]
      rw [countP_congr (q := fun _ => P Q) this]
      by_cases hP : P Q = true
      · simp [hP, List.countP_eq_length_filter, List.filter_eq_self.mpr]
      · have hP' : P Q = false := by
          cases hPQ : P Q
          · rfl
          · exact absurd hPQ hP
        simp [hP']
    rw [h2]
    have h3 : (List.countP P [Q]) = if P Q then 1 else 0 := by
      simp [List.countP_cons]
    rw [h3]
    by_cases hP : P Q = true <;> simp [hP] <;> ring

lemma countP_range_mod (L : ℕ) (l : ℕ) (hl : l < L) :
    ∀ K, (List.range (L * K)).countP (fun q => decide (q % L = l)) = K := by
  intro K
  induction K with
  | zero => simp
  | succ K ih =>
    rw [Nat.mul_succ, List.range_add, List.countP_append, ih,
      List.countP_map]
    have h2 : (List.range L).countP ((fun q => decide (q % L = l)) ∘
        (fun x => L * K + x)) = 1 := by
      have : ∀ r ∈ List.range L, ((fun q => decide (q % L = l)) ∘
          (fun x => L * K + x)) r = decide (r = l) := by
        intro r hr
        have hrL : r < L := List.mem_range.mp hr
        simp only [Function.comp]
        rw [Nat.mul_add_mod, Nat.mod_eq_of_lt hrL]
      rw [countP_congr this, countP_range_eq_single, if_pos hl]
    rw [h2]

/-! ### Per-step extraction of the planned slots -/

@[simp] lemma fwdExtractFor_none (s : ℕ) : fwdExtractFor s none = none := rfl

@[simp] lemma fwdExtractFor_fwd (s mb st : ℕ) :
    fwdExtractFor s (some (.FORWARD, mb, st)) =
      if st = s then some mb else none := rfl

@[simp] lemma fwdExtractFor_bwd (s mb st : ℕ) :
    fwdExtractFor s (some (.BACKWARD, mb, st)) = none := rfl

@[simp] lemma bwdExtractFor_none (s : ℕ) : bwdExtractFor s none = none := rfl

@[simp] lemma bwdExtractFor_fwd (s mb st : ℕ) :
    bwdExtractFor s (some (.FORWARD, mb, st)) = none := rfl

@[simp] lemma bwdExtractFor_bwd (s mb st : ℕ) :
    bwdExtractFor s (some (.BACKWARD, mb, st)) =
      if st = s then some mb else none := rfl

@[simp] lemma fwdEntryExtract_none : fwdEntryExtract none = none := rfl

@[simp] lemma fwdEntryExtract_fwd (mb st : ℕ) :
    fwdEntryExtract (some (.FORWARD, mb, st)) = some (mb, st) := rfl

@[simp] lemma fwdEntryExtract_bwd (mb st : ℕ) :
    fwdEntryExtract (some (.BACKWARD, mb, st)) = none := rfl

@[simp] lemma bwdEntryExtract_none : bwdEntryExtract none = none := rfl

@[simp] lemma bwdEntryExtract_fwd (mb st : ℕ) :
    bwdEntryExtract (some (.FORWARD, mb, st)) = none := rfl

@[simp] lemma bwdEntryExtract_bwd (mb st : ℕ) :
    bwdEntryExtract (some (.BACKWARD, mb, st)) = some (mb, st) := rfl

lemma planStepEmits_fwd_extract (G L N rank x j : ℕ) :
    (planStepEmits G L N rank j).filterMap (fwdExtractFor x) =
      if j < L * N ∧ forward_stage_index G L rank j = x then
        [planMbF G L rank j]
      else [] := by
  have hWFB := warmup_add_fwd_bwd G L N rank
  have hWLN := warmup_le_LN G L N rank
  unfold planStepEmits
  dsimp only
  by_cases hA : j < get_rank_warmup_steps G L N rank
  · rw [if_pos hA, List.filterMap_append]
    have hpad : (List.filterMap (fwdExtractFor x)
        (if j = get_rank_warmup_steps G L N rank - 1 then
          List.replicate (if rank = 0 then 2 else 0) none
        else [])) = [] := by
      by_cases hlast : j = get_rank_warmup_steps G L N rank - 1
      · rw [if_pos hlast]
        exact filterMap_replicate_none _ rfl _
      · rw [if_neg hlast]
        rfl
    rw [hpad, List.append_nil]
    have hjLN : j < L * N := by omega
    by_cases hx : forward_stage_index G L rank j = x <;>
      simp [hx, hjLN]
  · by_cases hB : j < get_rank_warmup_steps G L N rank +
        fwd_bwd_steps G L N rank
    · rw [if_neg hA, if_pos hB]
      have hjLN : j < L * N := by omega
      by_cases hx : forward_stage_index G L rank j = x <;>
        simp [hx, hjLN]
    · rw [if_neg hA, if_neg hB]
      have hjLN : ¬ j < L * N := by omega
      simp [hjLN]

lemma planStepEmits_bwd_extract (G L N rank x j : ℕ) :
    (planStepEmits G L N rank j).filterMap (bwdExtractFor x) =
      if get_rank_warmup_steps G L N rank ≤ j ∧
          backward_stage_index G L N rank j = x then
        [planMbB G L N rank j]
      else [] := by
  unfold planStepEmits
  dsimp only
  by_cases hA : j < get_rank_warmup_steps G L N rank
  · rw [if_pos hA, List.filterMap_append]
    have hpad : (List.filterMap (bwdExtractFor x)
        (if j = get_rank_warmup_steps G L N rank - 1 then
          List.replicate (if rank = 0 then 2 else 0) none
        else [])) = [] := by
      by_cases hlast : j = get_rank_warmup_steps G L N rank - 1
      · rw [if_pos hlast]
        exact filterMap_replicate_none _ rfl _
      · rw [if_neg hlast]
        rfl
    rw [hpad, List.append_nil]
    have hno : ¬ (get_rank_warmup_steps G L N rank ≤ j ∧
        backward_stage_index G L N rank j = x) := by omega
    simp [hno]
  · by_cases hB : j < get_rank_warmup_steps G L N rank +
        fwd_bwd_steps G L N rank
    · rw [if_neg hA, if_pos hB]
      have hW : get_rank_warmup_steps G L N rank ≤ j := by omega
      by_cases hx : backward_stage_index G L N rank j = x <;>
        simp [hx, hW]
    · rw [if_neg hA, if_neg hB]
      have hW : get_rank_warmup_steps G L N rank ≤ j := by omega
      by_cases hx : backward_stage_index G L N rank j = x <;>
        simp [hx, hW]

lemma planStepEmits_fwd_entry (G L N rank j : ℕ) :
    (planStepEmits G L N rank j).filterMap fwdEntryExtract =
      if j < L * N then
        [(planMbF G L rank j, forward_stage_index G L rank j)]
      else [] := by
  have hWFB := warmup_add_fwd_bwd G L N rank
  have hWLN := warmup_le_LN G L N rank
  unfold planStepEmits
  dsimp only
  by_cases hA : j < get_rank_warmup_steps G L N rank
  · rw [if_pos hA, List.filterMap_append]
    have hpad : (List.filterMap fwdEntryExtract
        (if j = get_rank_warmup_steps G L N rank - 1 then
          List.replicate (if rank = 0 then 2 else 0) none
        else [])) = [] := by
      by_cases hlast : j = get_rank_warmup_steps G L N rank - 1
      · rw [if_pos hlast]
        exact filterMap_replicate_none _ rfl _
      · rw [if_neg hlast]
        rfl
    rw [hpad, List.append_nil]
    have hjLN : j < L * N := by omega
    simp [hjLN]
  · by_cases hB : j < get_rank_warmup_steps G L N rank +
        fwd_bwd_steps G L N rank
    · rw [if_neg hA, if_pos hB]
      have hjLN : j < L * N := by omega
      simp [hjLN]
    · rw [if_neg hA, if_neg hB]
      have hjLN : ¬ j < L * N := by omega
      simp [hjLN]

lemma planStepEmits_bwd_entry (G L N rank j : ℕ) :
    (planStepEmits G L N rank j).filterMap bwdEntryExtract =
      if get_rank_warmup_steps G L N rank ≤ j then
        [(planMbB G L N rank j, backward_stage_index G L N rank j)]
      else [] := by
  unfold planStepEmits
  dsimp only
  by_cases hA : j < get_rank_warmup_steps G L N rank
  · rw [if_pos hA, List.filterMap_append]
    have hpad : (List.filterMap bwdEntryExtract
        (if j = get_rank_warmup_steps G L N rank - 1 then
          List.replicate (if rank = 0 then 2 else 0) none
        else [])) = [] := by
      by_cases hlast : j = get_rank_warmup_steps G L N rank - 1
      · rw [if_pos hlast]
        exact filterMap_replicate_none _ rfl _
      · rw [if_neg hlast]
        rfl
    rw [hpad, List.append_nil]
    simp [show ¬ get_rank_warmup_steps G L N rank ≤ j by omega]
  · by_cases hB : j < get_rank_warmup_steps G L N rank +
        fwd_bwd_steps G L N rank
    · rw [if_neg hA, if_pos hB]
      simp [show get_rank_warmup_steps G L N rank ≤ j by omega]
    · rw [if_neg hA, if_neg hB]
      simp [show get_rank_warmup_steps G L N rank ≤ j by omega]

/-! ### Per-stage microbatch lists of a planned row -/

lemma filter_range_lt (M E : ℕ) :
    (List.range (M + E)).filter (fun j => decide (j < M)) = List.range M := by
  rw [List.range_add, List.filter_append]
  have h1 : (List.range M).filter (fun j => decide (j < M)) =
      List.range M := by
    rw [List.filter_eq_self]
    intro j hj
    simp [List.mem_range.mp hj]
  have h2 : ((List.range E).map (M + ·)).filter
      (fun j => decide (j < M)) = [] := by
    rw [List.filter_eq_nil_iff]
    intro j hj
    rcases List.mem_map.mp hj with ⟨d, _, rfl⟩
    simp
  rw [h1, h2, List.append_nil]

lemma filter_range_le (W M : ℕ) :
    (List.range (W + M)).filter (fun j => decide (W ≤ j)) =
      (List.range M).map (W + ·) := by
  rw [List.range_add, List.filter_append]
  have h1 : (List.range W).filter (fun j => decide (W ≤ j)) = [] := by
    rw [List.filter_eq_nil_iff]
    intro j hj
    have := List.mem_range.mp hj
    simp
    omega
  have h2 : ((List.range M).map (W + ·)).filter
      (fun j => decide (W ≤ j)) = (List.range M).map (W + ·) := by
    rw [List.filter_eq_self]
    intro j hj
    rcases List.mem_map.mp hj with ⟨d, _, rfl⟩
    simp
  rw [h1, h2, List.nil_append]

/-- Shifted backward stage map: the stage addressed by the `d`-th
    backward of the plan. -/
lemma bsi_shift (G L N rank d : ℕ) :
    backward_stage_index G L N rank (get_rank_warmup_steps G L N rank + d) =
      (L - 1 - d / G % L) * G + rank := by
  unfold backward_stage_index
  rw [Nat.add_sub_cancel_left]

lemma fwdMbsFor_closed (G L N rank x : ℕ) :
    fwdMbsFor (_calculate_single_rank_operations G L N rank) x =
      List.range ((List.range (L * N)).countP
        (fun i => decide (forward_stage_index G L rank i = x))) := by
  unfold fwdMbsFor
  rw [calc_rank_ops_closed, List.filterMap_append, List.filterMap_append,
    filterMap_replicate_none _ rfl, filterMap_replicate_none _ rfl,
    List.nil_append, List.append_nil, filterMap_flatMap]
  have hcong : ((List.range (total_steps_interleaved G L N rank)).flatMap
      (fun j => (planStepEmits G L N rank j).filterMap (fwdExtractFor x))) =
      ((List.range (total_steps_interleaved G L N rank)).flatMap
        (fun j => if j < L * N ∧ forward_stage_index G L rank j = x then
          [planMbF G L rank j] else [])) := by
    refine congrArg _ (funext fun j => ?_)
    exact planStepEmits_fwd_extract G L N rank x j
  rw [hcong, flatMap_if_singleton]
  rw [total_interleaved_eq, Nat.add_comm, filter_range_and_lt]
  have hmap : ((List.range (L * N)).filter
      (fun j => decide (forward_stage_index G L rank j = x))).map
        (planMbF G L rank) =
      ((List.range (L * N)).filter
        (fun j => decide (forward_stage_index G L rank j = x))).map
        (fun j => (List.range j).countP
          (fun i => decide (forward_stage_index G L rank i = x))) := by
    refine List.map_congr_left ?_
    intro j hj
    have hx : forward_stage_index G L rank j = x :=
      of_decide_eq_true (List.mem_filter.mp hj).2
    unfold planMbF
    refine countP_congr ?_
    intro i _
    rw [hx]
  rw [hmap, map_prefix_count]

lemma bwdMbsFor_closed (G L N rank x : ℕ) :
    bwdMbsFor (_calculate_single_rank_operations G L N rank) x =
      List.range ((List.range (L * N)).countP
        (fun d => decide ((L - 1 - d / G % L) * G + rank = x))) := by
  unfold bwdMbsFor
  rw [calc_rank_ops_closed, List.filterMap_append, List.filterMap_append,
    filterMap_replicate_none _ rfl, filterMap_replicate_none _ rfl,
    List.nil_append, List.append_nil, filterMap_flatMap]
  have hcong : ((List.range (total_steps_interleaved G L N rank)).flatMap
      (fun j => (planStepEmits G L N rank j).filterMap (bwdExtractFor x))) =
      ((List.range (total_steps_interleaved G L N rank)).flatMap
        (fun j => if get_rank_warmup_steps G L N rank ≤ j ∧
            backward_stage_index G L N rank j = x then
          [planMbB G L N rank j] else [])) := by
    refine congrArg _ (funext fun j => ?_)
    exact planStepEmits_bwd_extract G L N rank x j
  rw [hcong, flatMap_if_singleton]
  rw [total_interleaved_eq, filter_range_and_le, List.map_map]
  have hmap : ((List.range (L * N)).filter (fun d =>
      decide (backward_stage_index G L N rank
        (get_rank_warmup_steps G L N rank + d) = x))).map
        (planMbB G L N rank ∘ (get_rank_warmup_steps G L N rank + ·)) =
      ((List.range (L * N)).filter (fun d =>
        decide ((L - 1 - d / G % L) * G + rank = x))).map
        (fun d => (List.range d).countP
          (fun i => decide ((L - 1 - i / G % L) * G + rank = x))) := by
    have hfil : ((List.range (L * N)).filter (fun d =>
        decide (backward_stage_index G L N rank
          (get_rank_warmup_steps G L N rank + d) = x))) =
        ((List.range (L * N)).filter (fun d =>
          decide ((L - 1 - d / G % L) * G + rank = x))) := by
      refine List.filter_congr ?_
      intro d _
      rw [bsi_shift]
    rw [hfil]
    refine List.map_congr_left ?_
    intro d hd
    have hx : (L - 1 - d / G % L) * G + rank = x :=
      of_decide_eq_true (List.mem_filter.mp hd).2
    simp only [Function.comp]
    unfold planMbB
    rw [countP_range_shift]
    refine countP_congr ?_
    intro i _
    rw [bsi_shift, bsi_shift, hx]
  rw [hmap, map_prefix_count ((fun d => (L - 1 - d / G % L) * G + rank))]

/-! ### Stage counts and ownership of a planned row -/

lemma fsi_eq_iff (G L rank : ℕ) (hG : 0 < G) (l j : ℕ) :
    forward_stage_index G L rank j = l * G + rank ↔ j / G % L = l := by
  unfold forward_stage_index
  constructor
  · intro h
    have h2 : j / G % L * G = l * G := by omega
    exact Nat.eq_of_mul_eq_mul_right hG h2
  · intro h
    rw [h]

lemma count_fsi (G L N rank : ℕ) (hG : 0 < G) (l : ℕ) (hl : l < L)
    (hdvd : G ∣ N) :
    (List.range (L * N)).countP
      (fun i => decide (forward_stage_index G L rank i = l * G + rank)) =
      N := by
  obtain ⟨m, rfl⟩ := hdvd
  have hcong : (List.range (L * (G * m))).countP
      (fun i => decide (forward_stage_index G L rank i = l * G + rank)) =
      (List.range (L * (G * m))).countP
        (fun i => decide (i / G % L = l)) := by
    refine countP_congr ?_
    intro i _
    exact decide_eq_decide.mpr (fsi_eq_iff G L rank hG l i)
  rw [hcong, show L * (G * m) = G * (L * m) by ring]
  calc (List.range (G * (L * m))).countP (fun i => decide (i / G % L = l))
      = G * (List.range (L * m)).countP (fun q => decide (q % L = l)) :=
        countP_range_div G hG (fun q => decide (q % L = l)) (L * m)
    _ = G * m := by rw [countP_range_mod L l hl m]

lemma bsiSh_eq_iff (G L rank : ℕ) (hG : 0 < G) (l : ℕ) (hl : l < L)
    (d : ℕ) :
    (L - 1 - d / G % L) * G + rank = l * G + rank ↔
      d / G % L = L - 1 - l := by
  have hmod : d / G % L < L := Nat.mod_lt _ (by omega)
  constructor
  · intro h
    have h2 : (L - 1 - d / G % L) * G = l * G := by omega
    have h3 : L - 1 - d / G % L = l := Nat.eq_of_mul_eq_mul_right hG h2
    omega
  · intro h
    have : L - 1 - d / G % L = l := by omega
    rw [this]

lemma count_bsiSh (G L N rank : ℕ) (hG : 0 < G) (l : ℕ) (hl : l < L)
    (hdvd : G ∣ N) :
    (List.range (L * N)).countP
      (fun d => decide ((L - 1 - d / G % L) * G + rank = l * G + rank)) =
      N := by
  obtain ⟨m, rfl⟩ := hdvd
  have hcong : (List.range (L * (G * m))).countP
      (fun d => decide ((L - 1 - d / G % L) * G + rank = l * G + rank)) =
      (List.range (L * (G * m))).countP
        (fun d => decide (d / G % L = L - 1 - l)) := by
    refine countP_congr ?_
    intro d _
    exact decide_eq_decide.mpr (bsiSh_eq_iff G L rank hG l hl d)
  rw [hcong, show L * (G * m) = G * (L * m) by ring]
  calc (List.range (G * (L * m))).countP
        (fun d => decide (d / G % L = L - 1 - l))
      = G * (List.range (L * m)).countP
          (fun q => decide (q % L = L - 1 - l)) :=
        countP_range_div G hG (fun q => decide (q % L = L - 1 - l)) (L * m)
    _ = G * m := by rw [countP_range_mod L (L - 1 - l) (by omega) m]

/-- Every non-empty slot of a planned row addresses one of the rank's
    stages `l' * G + rank` with `l' < L`. -/
lemma plan_stage_mem (G L N rank : ℕ) (hL : 0 < L) :
    ∀ a ∈ (_calculate_single_rank_operations G L N rank).filterMap id,
      ∃ l', l' < L ∧ a.2.2 = l' * G + rank := by
  intro a ha
  rw [calc_rank_ops_closed, List.filterMap_append, List.filterMap_append,
    filterMap_replicate_none _ rfl, filterMap_replicate_none _ rfl,
    List.nil_append, List.append_nil, filterMap_flatMap] at ha
  rcases List.mem_flatMap.mp ha with ⟨j, _, haj⟩
  unfold planStepEmits at haj
  dsimp only at haj
  have hfsi : ∀ mb : ℕ,
      a = (_ComputationType.FORWARD, mb, forward_stage_index G L rank j) →
      ∃ l', l' < L ∧ a.2.2 = l' * G + rank := by
    intro mb hmb
    refine ⟨j / G % L, Nat.mod_lt _ (by omega), ?_⟩
    rw [hmb]
    rfl
  have hbsi : ∀ mb : ℕ,
      a = (_ComputationType.BACKWARD, mb, backward_stage_index G L N rank j) →
      ∃ l', l' < L ∧ a.2.2 = l' * G + rank := by
    intro mb hmb
    refine ⟨L - 1 - (j - get_rank_warmup_steps G L N rank) / G % L,
      by omega, ?_⟩
    rw [hmb]
    rfl
  by_cases hA : j < get_rank_warmup_steps G L N rank
  · rw [if_pos hA, List.filterMap_append] at haj
    have hpad : (List.filterMap id
        (if j = get_rank_warmup_steps G L N rank - 1 then
          List.replicate (if rank = 0 then 2 else 0)
            (none : Option Action)
        else [])) = [] := by
      by_cases hlast : j = get_rank_warmup_steps G L N rank - 1
      · rw [if_pos hlast]
        exact filterMap_replicate_none _ rfl _
      · rw [if_neg hlast]
        rfl
    rw [hpad, List.append_nil] at haj
    simp only [List.filterMap_cons, List.filterMap_nil, id] at haj
    rcases List.mem_singleton.mp haj with rfl
    exact hfsi _ rfl
  · by_cases hB : j < get_rank_warmup_steps G L N rank +
        fwd_bwd_steps G L N rank
    · rw [if_neg hA, if_pos hB] at haj
      simp only [List.filterMap_cons, List.filterMap_nil, id] at haj
      rcases List.mem_cons.mp haj with rfl | haj2
      · exact hfsi _ rfl
      · rcases List.mem_singleton.mp haj2 with rfl
        exact hbsi _ rfl
    · rw [if_neg hA, if_neg hB] at haj
      simp only [List.filterMap_cons, List.filterMap_nil, id] at haj
      rcases List.mem_singleton.mp haj with rfl
      exact hbsi _ rfl

lemma fwdEntries_length (G L N rank : ℕ) :
    (fwdEntries (_calculate_single_rank_operations G L N rank)).length =
      L * N := by
  unfold fwdEntries
  rw [calc_rank_ops_closed, List.filterMap_append, List.filterMap_append,
    filterMap_replicate_none _ rfl, filterMap_replicate_none _ rfl,
    List.nil_append, List.append_nil, filterMap_flatMap]
  have hcong : ((List.range (total_steps_interleaved G L N rank)).flatMap
      (fun j => (planStepEmits G L N rank j).filterMap fwdEntryExtract)) =
      ((List.range (total_steps_interleaved G L N rank)).flatMap
        (fun j => if j < L * N then
          [(planMbF G L rank j, forward_stage_index G L rank j)] else [])) := by
    refine congrArg _ (funext fun j => ?_)
    exact planStepEmits_fwd_entry G L N rank j
  rw [hcong, flatMap_if_singleton, total_interleaved_eq, Nat.add_comm,
    filter_range_lt, List.length_map, List.length_range]

lemma bwdEntries_length (G L N rank : ℕ) :
    (bwdEntries (_calculate_single_rank_operations G L N rank)).length =
      L * N := by
  unfold bwdEntries
  rw [calc_rank_ops_closed, List.filterMap_append, List.filterMap_append,
    filterMap_replicate_none _ rfl, filterMap_replicate_none _ rfl,
    List.nil_append, List.append_nil, filterMap_flatMap]
  have hcong : ((List.range (total_steps_interleaved G L N rank)).flatMap
      (fun j => (planStepEmits G L N rank j).filterMap bwdEntryExtract)) =
      ((List.range (total_steps_interleaved G L N rank)).flatMap
        (fun j => if get_rank_warmup_steps G L N rank ≤ j then
          [(planMbB G L N rank j, backward_stage_index G L N rank j)]
        else [])) := by
    refine congrArg _ (funext fun j => ?_)
    exact planStepEmits_bwd_entry G L N rank j
  rw [hcong, flatMap_if_singleton, total_interleaved_eq, filter_range_le,
    List.length_map, List.length_map, List.length_range]

/-- C4: for every rank of the Interleaved 1F1B planner (with the
    constructor's precondition `G ∣ N`), the planned row has, for each
    of the rank's `L` local stages `l*G + rank`, FORWARD microbatch
    indices exactly `0..N-1` in ascending order and likewise BACKWARD;
    `L*N` forwards and `L*N` backwards in total; and every entry's stage
    index is one the rank owns (`≡ rank (mod G)` and `< L*G`). -/
theorem interleaved_rank_ops_spec (G L N rank : ℕ) (hG : 0 < G)
    (hL : 0 < L) (hrank : rank < G) (hdvd : G ∣ N) :
    (∀ l, l < L →
      fwdMbsFor (_calculate_single_rank_operations G L N rank)
          (l * G + rank) = List.range N ∧
      bwdMbsFor (_calculate_single_rank_operations G L N rank)
          (l * G + rank) = List.range N) ∧
    (fwdEntries (_calculate_single_rank_operations G L N rank)).length =
      L * N ∧
    (bwdEntries (_calculate_single_rank_operations G L N rank)).length =
      L * N ∧
    (∀ a ∈ (_calculate_single_rank_operations G L N rank).filterMap id,
      a.2.2 % G = rank ∧ a.2.2 < L * G) := by
  refine ⟨?_, fwdEntries_length G L N rank, bwdEntries_length G L N rank, ?_⟩
  · intro l hl
    constructor
    · rw [fwdMbsFor_closed, count_fsi G L N rank hG l hl hdvd]
    · rw [bwdMbsFor_closed, count_bsiSh G L N rank hG l hl hdvd]
  · intro a ha
    obtain ⟨l', hl', hst⟩ := plan_stage_mem G L N rank hL a ha
    constructor
    · rw [hst, Nat.mul_add_mod', Nat.mod_eq_of_lt hrank]
    · have h1 : l' * G ≤ (L - 1) * G :=
        Nat.mul_le_mul_right G (by omega)
      have h2 : (L - 1) * G = L * G - G := Nat.sub_one_mul L G
      have h3 : G ≤ L * G := Nat.le_mul_of_pos_left G hL
      omega

/-- C4 witness: G=2 ranks, L=2 local stages, N=2 microbatches, rank 0;
    its local stage `1*2+0 = 2`. -/
theorem interleaved_rank_ops_spec_witness :
    fwdMbsFor (_calculate_single_rank_operations 2 2 2 0) 2 =
        List.range 2 ∧
      bwdMbsFor (_calculate_single_rank_operations 2 2 2 0) 2 =
        List.range 2 ∧
      (fwdEntries (_calculate_single_rank_operations 2 2 2 0)).length =
        4 := by
  obtain ⟨h1, h2, _, _⟩ := interleaved_rank_ops_spec 2 2 2 0 (by decide)
    (by decide) (by decide) (by decide)
  refine ⟨?_, ?_, ?_⟩
  · simpa using (h1 1 (by decide)).1
  · simpa using (h1 1 (by decide)).2
  · simpa using h2

/-! ### C9: neighbour-peek lookups always hit an owned stage -/

lemma getD_some_mem {α : Type} {l : List (Option α)} {t : ℕ} {a : α}
    (h : l.getD t none = some a) : some a ∈ l := by
  rcases hlt : l.get? t with _ | v
  · rw [List.getD_eq_getD_get?, hlt] at h
    simp at h
  · rw [List.getD_eq_getD_get?, hlt] at h
    simp only [Option.getD_some] at h
    subst h
    exact List.get?_mem hlt

lemma mem_ownedStages_iff (G L rank s : ℕ) :
    s ∈ ownedStages G L rank ↔ ∃ l', l' < L ∧ s = l' * G + rank := by
  unfold ownedStages
  simp only [List.mem_map, List.mem_range]
  constructor
  · rintro ⟨l', hl', rfl⟩
    exact ⟨l', hl', rfl⟩
  · rintro ⟨l', hl', rfl⟩
    exact ⟨l', hl', rfl⟩

lemma pipeline_order_getD (G L N r : ℕ) (hr : r < G) :
    (pipeline_order G L N).getD r [] =
      _calculate_single_rank_operations G L N r := by
  unfold pipeline_order
  rw [List.getD_eq_getD_get?, List.get?_map, List.get?_range hr]
  rfl

lemma ok_bind_str {α β : Type} (a : α) (f : α → Except String β) :
    (Except.ok a >>= f) = f a := rfl

lemma mapM_ok_of_forall {α β : Type} (f : α → Except String β) :
    ∀ l : List α, (∀ x ∈ l, ∃ y, f x = .ok y) →
      ∃ ys, l.mapM f = .ok ys := by
  intro l
  induction l with
  | nil => intro _; exact ⟨[], rfl⟩
  | cons a l ih =>
    intro h
    obtain ⟨y, hy⟩ := h a (List.mem_cons_self a l)
    obtain ⟨ys, hys⟩ := ih (fun x hx => h x (List.mem_cons_of_mem _ hx))
    refine ⟨y :: ys, ?_⟩
    rw [List.mapM_cons, hy, ok_bind_str, hys, ok_bind_str]
    rfl

lemma row_action_stage (G L N r : ℕ) (hL : 0 < L) {t mb s : ℕ}
    {ct : _ComputationType}
    (h : (_calculate_single_rank_operations G L N r).getD t none =
      some (ct, mb, s)) :
    ∃ l', l' < L ∧ s = l' * G + r := by
  have hm : some (ct, mb, s) ∈ _calculate_single_rank_operations G L N r :=
    getD_some_mem h
  have hm2 : (ct, mb, s) ∈
      (_calculate_single_rank_operations G L N r).filterMap id :=
    List.mem_filterMap.mpr ⟨some (ct, mb, s), hm, rfl⟩
  exact plan_stage_mem G L N r hL _ hm2

lemma prev_rank_eq (G rank : ℕ) (hG : 0 < G) (hrank : rank < G) :
    (rank + G - 1) % G = if rank = 0 then G - 1 else rank - 1 := by
  by_cases h0 : rank = 0
  · subst h0
    rw [if_pos rfl]
    simp only [Nat.zero_add]
    exact Nat.mod_eq_of_lt (by omega)
  · rw [if_neg h0]
    have : rank + G - 1 = (rank - 1) + G := by omega
    rw [this, Nat.add_mod_right]
    exact Nat.mod_eq_of_lt (by omega)

lemma next_rank_eq (G rank : ℕ) (hG : 0 < G) (hrank : rank < G) :
    (rank + 1) % G = if rank = G - 1 then 0 else rank + 1 := by
  by_cases h0 : rank = G - 1
  · subst h0
    rw [if_pos rfl, show G - 1 + 1 = G by omega, Nat.mod_self]
  · rw [if_neg h0]
    exact Nat.mod_eq_of_lt (by omega)

/-- C9: in `ScheduleInterleaved1F1B._step_microbatches`, every
    neighbour-peek stage lookup succeeds: a FORWARD in the previous
    rank's row on stage `s ≠ num_stages-1` has `s+1` among this rank's
    stages, a BACKWARD in the next rank's row on stage `s ≠ 0` has
    `s-1` among this rank's stages, and consequently the whole
    executor run completes without a "stage not owned" failure. -/
theorem interleaved_peek_lookups_succeed (G L N rank : ℕ) (hG : 0 < G)
    (hL : 0 < L) (hrank : rank < G) :
    (∀ t mb s,
      ((pipeline_order G L N).getD ((rank + G - 1) % G) []).getD t none =
        some (.FORWARD, mb, s) → s ≠ L * G - 1 →
      (s + 1) ∈ ownedStages G L rank) ∧
    (∀ t mb s,
      ((pipeline_order G L N).getD ((rank + 1) % G) []).getD t none =
        some (.BACKWARD, mb, s) → s ≠ 0 →
      (s - 1) ∈ ownedStages G L rank) ∧
    ∃ evs, runInterleaved1F1B G L N rank = .ok evs := by
  have hprevlt : (rank + G - 1) % G < G := Nat.mod_lt _ hG
  have hnextlt : (rank + 1) % G < G := Nat.mod_lt _ hG
  have hprev : ∀ t mb s,
      ((pipeline_order G L N).getD ((rank + G - 1) % G) []).getD t none =
        some (.FORWARD, mb, s) → s ≠ L * G - 1 →
      (s + 1) ∈ ownedStages G L rank := by
    intro t mb s hslot hne
    rw [pipeline_order_getD G L N _ hprevlt] at hslot
    obtain ⟨l', hl', hs⟩ := row_action_stage G L N _ hL hslot
    rw [prev_rank_eq G rank hG hrank] at hs
    rw [mem_ownedStages_iff]
    by_cases h0 : rank = 0
    · rw [if_pos h0] at hs
      subst h0
      have hlG : l' * G + G = (l' + 1) * G := by ring
      have hne' : l' + 1 ≠ L := by
        intro hc
        apply hne
        have : l' * G + G = L * G := by rw [hlG, hc]
        omega
      exact ⟨l' + 1, by omega, by omega⟩
    · rw [if_neg h0] at hs
      exact ⟨l', hl', by omega⟩
  have hnext : ∀ t mb s,
      ((pipeline_order G L N).getD ((rank + 1) % G) []).getD t none =
        some (.BACKWARD, mb, s) → s ≠ 0 →
      (s - 1) ∈ ownedStages G L rank := by
    intro t mb s hslot hne
    rw [pipeline_order_getD G L N _ hnextlt] at hslot
    obtain ⟨l', hl', hs⟩ := row_action_stage G L N _ hL hslot
    rw [next_rank_eq G rank hG hrank] at hs
    rw [mem_ownedStages_iff]
    by_cases h0 : rank = G - 1
    · rw [if_pos h0] at hs
      -- s = l' * G, s ≠ 0, so l' ≥ 1; s - 1 = (l'-1) * G + (G-1)
      have hl0 : l' ≠ 0 := by
        intro hc
        apply hne
        rw [hc, Nat.zero_mul, Nat.zero_add] at hs
        exact hs
      refine ⟨l' - 1, by omega, ?_⟩
      have h1 : (l' - 1) * G = l' * G - G := Nat.sub_one_mul l' G
      have h2 : G ≤ l' * G := by
        calc G = 1 * G := (Nat.one_mul G).symm
        _ ≤ l' * G := Nat.mul_le_mul_right G (by omega)
      omega
    · rw [if_neg h0] at hs
      exact ⟨l', hl', by omega⟩
  refine ⟨hprev, hnext, ?_⟩
  have hown : ∀ t mb s (ct : _ComputationType),
      ((pipeline_order G L N).getD rank []).getD t none = some (ct, mb, s) →
      s ∈ ownedStages G L rank := by
    intro t mb s ct hslot
    rw [pipeline_order_getD G L N _ hrank] at hslot
    obtain ⟨l', hl', hs⟩ := row_action_stage G L N _ hL hslot
    rw [mem_ownedStages_iff]
    exact ⟨l', hl', hs⟩
  -- each time step of the executor succeeds
  have hstep : ∀ t, ∃ l, interleavedStepAt G L N rank
      ((pipeline_order G L N).getD rank [])
      ((pipeline_order G L N).getD ((rank + G - 1) % G) [])
      ((pipeline_order G L N).getD ((rank + 1) % G) []) t = .ok l := by
    intro t
    unfold interleavedStepAt
    dsimp only
    have hA : ∃ evs, ((match ((pipeline_order G L N).getD rank []).getD t none
        with
      | some (.FORWARD, mb_index, stage_index) =>
        if stage_index ∈ ownedStages G L rank then
          pure [EventM.fwd stage_index mb_index]
        else .error "stage not owned"
      | some (.BACKWARD, mb_index, stage_index) =>
        if stage_index ∈ ownedStages G L rank then
          pure [EventM.bwd stage_index mb_index]
        else .error "stage not owned"
      | none => pure []) : Except String (List EventM)) = .ok evs := by
      rcases hc : ((pipeline_order G L N).getD rank []).getD t none with
        _ | ⟨ct, mb, si⟩
      · exact ⟨[], rfl⟩
      · cases ct with
        | FORWARD =>
          dsimp only
          rw [if_pos (hown t mb si _ hc)]
          exact ⟨_, rfl⟩
        | BACKWARD =>
          dsimp only
          rw [if_pos (hown t mb si _ hc)]
          exact ⟨_, rfl⟩
    obtain ⟨evs, hAe⟩ := hA
    rw [hAe, ok_bind_str]
    have hB : ((match ((pipeline_order G L N).getD ((rank + G - 1) % G)
        []).getD t none with
      | some (.FORWARD, _, stage_index) =>
        if stage_index ≠ L * G - 1 then
          if (stage_index + 1) ∈ ownedStages G L rank then pure ()
          else .error "stage not owned"
        else pure ()
      | _ => pure ()) : Except String Unit) = Except.ok () := by
      rcases hc : ((pipeline_order G L N).getD ((rank + G - 1) % G)
          []).getD t none with _ | ⟨ct, mb, si⟩
      · rfl
      · cases ct with
        | FORWARD =>
          dsimp only
          by_cases hne : si ≠ L * G - 1
          · rw [if_pos hne, if_pos (hprev t mb si hc hne)]
            rfl
          · rw [if_neg hne]
            rfl
        | BACKWARD => rfl
    rw [hB, ok_bind_str]
    have hC : ((match ((pipeline_order G L N).getD ((rank + 1) % G)
        []).getD t none with
      | some (.BACKWARD, _, stage_index) =>
        if stage_index ≠ 0 then
          if (stage_index - 1) ∈ ownedStages G L rank then pure ()
          else .error "stage not owned"
        else pure ()
      | _ => pure ()) : Except String Unit) = Except.ok () := by
      rcases hc : ((pipeline_order G L N).getD ((rank + 1) % G)
          []).getD t none with _ | ⟨ct, mb, si⟩
      · rfl
      · cases ct with
        | FORWARD => rfl
        | BACKWARD =>
          dsimp only
          by_cases hne : si ≠ 0
          · rw [if_pos hne, if_pos (hnext t mb si hc hne)]
            rfl
          · rw [if_neg hne]
            rfl
    rw [hC, ok_bind_str]
    exact ⟨evs, rfl⟩
  -- assemble the mapM
  unfold runInterleaved1F1B
  dsimp only
  obtain ⟨evss, hm⟩ := mapM_ok_of_forall _ _ (fun t _ => hstep t)
  rw [hm, ok_bind_str]
  exact ⟨evss.flatten, rfl⟩

/-- C9 witness: G=2, L=2, N=2, rank 0.  The previous rank's row has a
    FORWARD on stage 1 at time step 1, and indeed stage 2 is local to
    rank 0; the whole executor run for rank 0 succeeds. -/
theorem interleaved_peek_lookups_succeed_witness :
    (1 + 1) ∈ ownedStages 2 2 0 ∧
      (runInterleaved1F1B 2 2 2 0).isOk = true := by
  have h := interleaved_peek_lookups_succeed 2 2 2 0 (by decide) (by decide)
    (by decide)
  refine ⟨h.1 1 0 1 (by decide) (by decide), ?_⟩
  obtain ⟨evs, hevs⟩ := h.2.2
  rw [hevs]
  rfl

end PipelineSchedule
